import Mathlib

/-!
Verification development for the AI-Scrapping repository.

Shallow embedding of the two-pass extraction core
(src/src/llm/enhanced_data_extractor.py) together with spec-modelled
fragments for components whose sources are not in the snapshot
(robots_checker, html_chunker).  Python dictionaries are modelled as
insertion-ordered association lists, Python floats as exact rationals,
and a Python exception that escapes a function as `Except.error`.
-/

set_option linter.unusedVariables false

namespace AIScrapping

/-- JSON-like values returned by an LLM extraction provider.  Python
floats and ints are both modelled as `Rat`; numeric-string parsing of
`float()`/`int()` is not modelled (treated as a conversion failure). -/
inductive JVal where
  | null : JVal
  | bool : Bool → JVal
  | num : Rat → JVal
  | str : String → JVal
  | arr : List JVal → JVal
  | obj : List (String × JVal) → JVal
deriving Repr

/-- Python dict modelled as an insertion-ordered association list. -/
abbrev Dict := List (String × JVal)

mutual

/-- Decidable equality for `JVal` (structural, mirroring Python `==` on
parsed JSON values). -/
def JVal.decEq : (a b : JVal) → Decidable (a = b)
  | .null, .null => isTrue rfl
  | .null, .bool _ => isFalse nofun
  | .null, .num _ => isFalse nofun
  | .null, .str _ => isFalse nofun
  | .null, .arr _ => isFalse nofun
  | .null, .obj _ => isFalse nofun
  | .bool _, .null => isFalse nofun
  | .bool a, .bool b =>
    if h : a = b then isTrue (by rw [h]) else
      isFalse (by intro hh; injection hh; exact h ‹_›)
  | .bool _, .num _ => isFalse nofun
  | .bool _, .str _ => isFalse nofun
  | .bool _, .arr _ => isFalse nofun
  | .bool _, .obj _ => isFalse nofun
  | .num _, .null => isFalse nofun
  | .num _, .bool _ => isFalse nofun
  | .num a, .num b =>
    if h : a = b then isTrue (by rw [h]) else
      isFalse (by intro hh; injection hh; exact h ‹_›)
  | .num _, .str _ => isFalse nofun
  | .num _, .arr _ => isFalse nofun
  | .num _, .obj _ => isFalse nofun
  | .str _, .null => isFalse nofun
  | .str _, .bool _ => isFalse nofun
  | .str _, .num _ => isFalse nofun
  | .str a, .str b =>
    if h : a = b then isTrue (by rw [h]) else
      isFalse (by intro hh; injection hh; exact h ‹_›)
  | .str _, .arr _ => isFalse nofun
  | .str _, .obj _ => isFalse nofun
  | .arr _, .null => isFalse nofun
  | .arr _, .bool _ => isFalse nofun
  | .arr _, .num _ => isFalse nofun
  | .arr _, .str _ => isFalse nofun
  | .arr a, .arr b =>
    match JVal.decEqList a b with
    | isTrue h => isTrue (by rw [h])
    | isFalse h => isFalse (by intro hh; injection hh; exact h ‹_›)
  | .arr _, .obj _ => isFalse nofun
  | .obj _, .null => isFalse nofun
  | .obj _, .bool _ => isFalse nofun
  | .obj _, .num _ => isFalse nofun
  | .obj _, .str _ => isFalse nofun
  | .obj _, .arr _ => isFalse nofun
  | .obj a, .obj b =>
    match JVal.decEqObj a b with
    | isTrue h => isTrue (by rw [h])
    | isFalse h => isFalse (by intro hh; injection hh; exact h ‹_›)

/-- Decidable equality for JSON arrays. -/
def JVal.decEqList : (a b : List JVal) → Decidable (a = b)
  | [], [] => isTrue rfl
  | [], _ :: _ => isFalse nofun
  | _ :: _, [] => isFalse nofun
  | x :: xs, y :: ys =>
    match JVal.decEq x y, JVal.decEqList xs ys with
    | isTrue h1, isTrue h2 => isTrue (by rw [h1, h2])
    | isFalse h1, _ => isFalse (by intro hh; injection hh; exact h1 ‹_›)
    | isTrue _, isFalse h2 => isFalse (by intro hh; injection hh; exact h2 ‹_›)

/-- Decidable equality for JSON objects. -/
def JVal.decEqObj : (a b : List (String × JVal)) → Decidable (a = b)
  | [], [] => isTrue rfl
  | [], _ :: _ => isFalse nofun
  | _ :: _, [] => isFalse nofun
  | (k1, v1) :: xs, (k2, v2) :: ys =>
    if hk : k1 = k2 then
      match JVal.decEq v1 v2, JVal.decEqObj xs ys with
      | isTrue h2, isTrue h3 => isTrue (by rw [hk, h2, h3])
      | isFalse h2, _ => isFalse (by
          intro hh
          injection hh with hp ht
          injection hp with hk2 hv2
          exact h2 hv2)
      | isTrue _, isFalse h3 => isFalse (by
          intro hh
          injection hh with hp ht
          exact h3 ht)
    else
      isFalse (by
        intro hh
        injection hh with hp ht
        injection hp with hk2 hv2
        exact hk hk2)

end

instance : DecidableEq JVal := JVal.decEq

/-- Decidable equality for `Except`-valued pipeline results. -/
def exceptDecEq {α : Type} [DecidableEq α] : DecidableEq (Except String α)
  | .error e1, .error e2 =>
    if h : e1 = e2 then isTrue (by rw [h]) else
      isFalse (by intro hh; injection hh; exact h ‹_›)
  | .error _, .ok _ => isFalse nofun
  | .ok _, .error _ => isFalse nofun
  | .ok a, .ok b =>
    if h : a = b then isTrue (by rw [h]) else
      isFalse (by intro hh; injection hh; exact h ‹_›)

instance {α : Type} [DecidableEq α] : DecidableEq (Except String α) := exceptDecEq

/-- Lookup in an association-list dict: the value stored at key `k`
(Python `d[k]` / `d.get(k)`); `none` when the key is absent. -/
def lookupD (k : String) : Dict → Option JVal
  | [] => none
  | kv :: rest => if kv.1 = k then some kv.2 else lookupD k rest

/-- Python `d[k] = v`: overwrite in place if `k` is present (keeping its
insertion position), otherwise append the new key at the end. -/
def setKey : Dict → String → JVal → Dict
  | [], k, v => [(k, v)]
  | kv :: rest, k, v =>
    if kv.1 = k then (k, v) :: rest else kv :: setKey rest k v

/-- Python `d.update(src)`: assign every key of `src` into `d`, in the
insertion order of `src`. -/
def pyUpdate (d src : Dict) : Dict :=
  src.foldl (fun acc kv => setKey acc kv.1 kv.2) d

theorem lookupD_setKey (d : Dict) (k k2 : String) (v : JVal) :
    lookupD k2 (setKey d k v) = if k = k2 then some v else lookupD k2 d := by
  induction d with
  | nil =>
    by_cases h : k = k2 <;> simp [setKey, lookupD, h]
  | cons kv rest ih =>
    by_cases h1 : kv.1 = k
    · by_cases h : k = k2 <;> simp [setKey, lookupD, h1, h]
    · simp only [setKey, h1, if_false, lookupD]
      by_cases h2 : kv.1 = k2
      · have : ¬ k = k2 := fun hh => h1 (hh ▸ h2)
        simp [h2, this]
      · simp [h2, ih]

theorem lookupD_pyUpdate (d src : Dict) (k : String) :
    lookupD k (pyUpdate d src) =
      match (src.reverse.find? (fun kv => kv.1 = k)) with
      | some kv => some kv.2
      | none => lookupD k d := by
  induction src generalizing d with
  | nil => simp [pyUpdate]
  | cons kv rest ih =>
    show lookupD k (pyUpdate (setKey d kv.1 kv.2) rest) = _
    rw [ih]
    simp only [List.reverse_cons, List.find?_append]
    cases hfind : rest.reverse.find? (fun kv => kv.1 = k) with
    | some kv2 => simp [hfind]
    | none =>
      simp only [hfind, Option.none_or]
      by_cases hk : kv.1 = k
      · simp [List.find?, hk, lookupD_setKey]
      · have : ¬ k = kv.1 := fun hh => hk hh.symm
        simp [List.find?, hk, lookupD_setKey, this]

/-! Characters and substrings.  Python `kw in s` is substring containment;
`str.lower()` is modelled on the Latin-1 range (ASCII `A`-`Z` and `À`-`Þ`
except `×`), which covers every character the embedded keyword lists use. -/

/-- Model of Python `str.lower()` on one character (Latin-1 range). -/
def pyToLower (c : Char) : Char :=
  if ('A' ≤ c ∧ c ≤ 'Z') ∨ ('À' ≤ c ∧ c ≤ 'Þ' ∧ c ≠ '×') then
    Char.ofNat (c.toNat + 32)
  else c

/-- Model of Python `str.lower()`. -/
def pyLower (s : List Char) : List Char := s.map pyToLower

/-- Substring containment: Python `needle in hay`. -/
def containsSub : List Char → List Char → Bool
  | n, [] => n.isEmpty
  | n, c :: rest => n.isPrefixOf (c :: rest) || containsSub n rest

/-- Number of keywords of `kws` that occur in `hay`
(Python `sum(1 for kw in kws if kw in hay)`). -/
def kwCount (kws : List String) (hay : List Char) : Nat :=
  kws.countP (fun kw => containsSub kw.data hay)

/-- True for the characters matched by the regex class `\s`. -/
def isPyWs (c : Char) : Bool :=
  c = ' ' || c = '\t' || c = '\n' || c = '\r' || c = '\x0b' || c = '\x0c'

/-- Matcher for the tail `\s*€` of the price regex. -/
def matchWsEuro : List Char → Bool
  | [] => false
  | c :: rest => if c = '€' then true else if isPyWs c then matchWsEuro rest else false

/-- Matcher for the tail `\d*\s*€` of the price regex, entered after the
first digit has been consumed. -/
def matchRest : List Char → Bool
  | [] => false
  | c :: rest =>
    if c = '€' then true
    else if c.isDigit then matchRest rest
    else if isPyWs c then matchWsEuro rest
    else false

/-- Model of `re.search(r"\d+\s*€", chunk)`: some position starts a digit
followed by more digits, optional whitespace and the euro sign. -/
def priceRegex : List Char → Bool
  | [] => false
  | c :: rest => (c.isDigit && matchRest rest) || priceRegex rest

/-- ChunkAnalysis dataclass of enhanced_data_extractor.py.  The
dataclass annotations (`content_type: str`, `contains_specs: bool`, …)
are not enforced at runtime: `_analyze_single_chunk` stores the raw
JSON values of the provider response, so those fields are arbitrary
`JVal`s here.  `relevance_score` and `priority` go through Python
`float(...)` / `int(...)` and are exact rationals / integers. -/
structure ChunkAnalysis where
  chunk_index : Nat
  content_type : JVal
  relevance_score : Rat
  contains_specs : JVal
  contains_pricing : JVal
  contains_review : JVal
  key_topics : JVal
  priority : Int
deriving Repr, DecidableEq

/-- Keyword list `specs_keywords` of `_heuristic_analysis`. -/
def specs_keywords : List String :=
  ["processeur", "cpu", "ram", "mémoire", "stockage", "écran", "batterie", "mah", "mp", "ghz"]

/-- Keyword list `pricing_keywords` of `_heuristic_analysis`. -/
def pricing_keywords : List String :=
  ["€", "prix", "coût", "promotion", "offre", "tarif"]

/-- Keyword list `review_keywords` of `_heuristic_analysis`. -/
def review_keywords : List String :=
  ["points forts", "points faibles", "verdict", "note", "avis", "critique"]

/-- EnhancedDataExtractor._heuristic_analysis: deterministic keyword-based
fallback classification of one chunk (weights 0.3 = 3/10, 0.2 = 1/5). -/
def heuristic_analysis (chunk : String) (index : Nat) : ChunkAnalysis :=
  let chunk_lower := pyLower chunk.data
  let specsHits := kwCount specs_keywords chunk_lower
  let contains_specs := decide (2 ≤ specsHits)
  let contains_pricing :=
    (pricing_keywords.any (fun kw => containsSub kw.data chunk_lower)) || priceRegex chunk.data
  let contains_review := decide (1 ≤ kwCount review_keywords chunk_lower)
  let tp : String × Int :=
    if contains_specs ∧ 3 ≤ specsHits then ("specs", 1)
    else if contains_pricing then ("pricing", 2)
    else if contains_review then ("review", 1)
    else ("general", 3)
  let relevance_score : Rat :=
    min 1 ((chunk.length : Rat) / 1000
      + (if contains_specs then mkRat 3 10 else 0)
      + (if contains_pricing then mkRat 1 5 else 0)
      + (if contains_review then mkRat 3 10 else 0))
  { chunk_index := index
    content_type := .str tp.1
    relevance_score := relevance_score
    contains_specs := .bool contains_specs
    contains_pricing := .bool contains_pricing
    contains_review := .bool contains_review
    key_topics := .arr []
    priority := tp.2 }

/-- Reference classification written from the words of the spec (section
4.5): `specs` when at least 3 spec keywords occur, else `pricing` when a
currency symbol or price keyword occurs, else `review` when at least one
review keyword occurs, else `general`; priority 1 for specs and review,
2 for pricing, 3 for general; relevance = min(1, len/1000 + weighted
keyword bonuses) with nonnegative bonuses per detected vocabulary (the
spec names no numeric weights, the code weights 3/10, 1/5, 3/10 are
used). -/
def heuristicSpecRef (chunk : String) : String × Int × Rat :=
  let chunk_lower := pyLower chunk.data
  let specsHits := kwCount specs_keywords chunk_lower
  let pricingHit := pricing_keywords.any (fun kw => containsSub kw.data chunk_lower)
  let reviewHit := decide (1 ≤ kwCount review_keywords chunk_lower)
  let ct : String × Int :=
    if 3 ≤ specsHits then ("specs", 1)
    else if pricingHit then ("pricing", 2)
    else if reviewHit then ("review", 1)
    else ("general", 3)
  let relevance : Rat :=
    min 1 ((chunk.length : Rat) / 1000
      + (if 2 ≤ specsHits then mkRat 3 10 else 0)
      + (if pricingHit ∨ priceRegex chunk.data then mkRat 1 5 else 0)
      + (if reviewHit then mkRat 3 10 else 0))
  (ct.1, ct.2, relevance)

/-- WebsiteType enumeration of enhanced_data_extractor.py. -/
inductive WebsiteType where
  | review | ecommerce | news | blog | technical | general
deriving Repr, DecidableEq

/-- Domain list of the `website_patterns` entry for a type (empty for the
types that have no entry). -/
def patternDomains : WebsiteType → List String
  | .review => ["frandroid.com", "phonandroid.com", "numerama.com", "clubic.com"]
  | .ecommerce => ["cdiscount.com", "amazon.fr", "fnac.com", "darty.com"]
  | .news => ["lemonde.fr", "lefigaro.fr", "bfmtv.com"]
  | _ => []

/-- Indicator list of the `website_patterns` entry for a type. -/
def patternIndicators : WebsiteType → List String
  | .review => ["test", "review", "avis", "critique", "verdict", "note", "rating"]
  | .ecommerce => ["prix", "acheter", "ajouter panier", "promotion", "offre"]
  | .news => ["actualité", "news", "info", "article"]
  | _ => []

/-- Iteration order of the `website_patterns` dict. -/
def website_patterns_order : List WebsiteType := [.review, .ecommerce, .news]

/-- Helper for `extract_domain`: characters after the first `://`. -/
def afterScheme : List Char → Option (List Char)
  | [] => none
  | c :: rest =>
    if List.isPrefixOf (String.data "://") (c :: rest) then some ((c :: rest).drop 3)
    else afterScheme rest

/-- EnhancedDataExtractor._extract_domain: the lowercased netloc of the
URL, modelled as the text between the first `://` and the following `/`,
`?` or `#` (urllib.parse.urlparse; a URL without `://` has empty
netloc). -/
def extract_domain (url : String) : String :=
  match afterScheme url.data with
  | some rest =>
    ⟨pyLower (rest.takeWhile (fun c => ¬ (c = '/' ∨ c = '?' ∨ c = '#')))⟩
  | none => ""

/-- EnhancedDataExtractor.detect_website_type, embedded with the
shadowing bug of the source: the loop condition
`any(domain in patterns[\x27domains\x27] for domain in patterns[\x27domains\x27])`
re-binds `domain` to each list element, so it tests whether some element
of the domain list is in the domain list. -/
def detect_website_type (url content : String) : WebsiteType :=
  let domain := extract_domain url
  match website_patterns_order.find?
      (fun wt => (patternDomains wt).any (fun d => (patternDomains wt).contains d)) with
  | some wt => wt
  | none =>
    let _ := domain
    let content_lower := pyLower content.data
    let review_score := kwCount (patternIndicators .review) content_lower
    let ecommerce_score := kwCount (patternIndicators .ecommerce) content_lower
    if review_score > ecommerce_score ∧ 2 ≤ review_score then .review
    else if 2 ≤ ecommerce_score then .ecommerce
    else .general

theorem mem_of_matchWsEuro : ∀ cs, matchWsEuro cs = true → '€' ∈ cs := by
  intro cs
  induction cs with
  | nil => simp [matchWsEuro]
  | cons c rest ih =>
    simp only [matchWsEuro]
    by_cases hc : c = '€'
    · intro _; simp [hc]
    · simp only [hc, if_false]
      by_cases hw : isPyWs c = true
      · intro h
        simp only [hw, if_true] at h
        exact List.mem_cons_of_mem _ (ih h)
      · simp [hw]

theorem mem_of_matchRest : ∀ cs, matchRest cs = true → '€' ∈ cs := by
  intro cs
  induction cs with
  | nil => simp [matchRest]
  | cons c rest ih =>
    simp only [matchRest]
    by_cases hc : c = '€'
    · intro _; simp [hc]
    · simp only [hc, if_false]
      by_cases hd : c.isDigit = true
      · intro h
        simp only [hd, if_true] at h
        exact List.mem_cons_of_mem _ (ih h)
      · simp only [hd, if_false]
        by_cases hw : isPyWs c = true
        · intro h
          simp only [hw, if_true] at h
          exact List.mem_cons_of_mem _ (mem_of_matchWsEuro rest h)
        · simp [hw]

theorem mem_of_priceRegex : ∀ cs, priceRegex cs = true → '€' ∈ cs := by
  intro cs
  induction cs with
  | nil => simp [priceRegex]
  | cons c rest ih =>
    simp only [priceRegex, Bool.or_eq_true, Bool.and_eq_true]
    rintro (⟨_, hm⟩ | hr)
    · exact List.mem_cons_of_mem _ (mem_of_matchRest rest hm)
    · exact List.mem_cons_of_mem _ (ih hr)

theorem containsSub_singleton_of_mem (c : Char) :
    ∀ hay, c ∈ hay → containsSub [c] hay = true := by
  intro hay
  induction hay with
  | nil => simp
  | cons x rest ih =>
    intro h
    rcases List.mem_cons.1 h with h1 | h2
    · subst h1
      simp [containsSub, List.isPrefixOf]
    · simp [containsSub, ih h2]

theorem euro_mem_pyLower {cs : List Char} (h : '€' ∈ cs) : '€' ∈ pyLower cs := by
  have : pyToLower '€' = '€' := by decide
  exact this ▸ List.mem_map_of_mem pyToLower h

/-- A match of the regex `\d+\s*€` contains the euro sign, which is
itself a pricing keyword. -/
theorem any_of_priceRegex (cs : List Char) (hr : priceRegex cs = true) :
    pricing_keywords.any (fun kw => containsSub kw.data (pyLower cs)) = true := by
  have hmem : '€' ∈ pyLower cs := euro_mem_pyLower (mem_of_priceRegex cs hr)
  refine List.any_eq_true.2 ⟨"€", by simp [pricing_keywords], ?_⟩
  exact containsSub_singleton_of_mem '€' (pyLower cs) hmem

/-- The regex branch of `contains_pricing` is redundant. -/
theorem pricing_flag_eq (cs : List Char) :
    (pricing_keywords.any (fun kw => containsSub kw.data (pyLower cs)) || priceRegex cs)
      = pricing_keywords.any (fun kw => containsSub kw.data (pyLower cs)) := by
  cases hr : priceRegex cs with
  | false => simp
  | true => simp [any_of_priceRegex cs hr]

/-- C2.  The heuristic classification fallback is a pure function of the
chunk text that agrees with the reference definition written from the
spec: content type specs at 3 or more spec keywords, else pricing on a
currency symbol or price keyword, else review on a review keyword, else
general; priority 1/2/1/3 respectively; relevance equal to
min(1, len/1000 + weighted bonuses) and inside [0, 1].  The chunk
containing the text prix: 999€, promotion classifies as pricing with
priority 2 and contains_pricing true. -/
theorem heuristic_matches_spec_fallback :
    (∀ (chunk : String) (i : Nat),
      (heuristic_analysis chunk i).content_type = JVal.str (heuristicSpecRef chunk).1 ∧
      (heuristic_analysis chunk i).priority = (heuristicSpecRef chunk).2.1 ∧
      (heuristic_analysis chunk i).relevance_score = (heuristicSpecRef chunk).2.2 ∧
      0 ≤ (heuristic_analysis chunk i).relevance_score ∧
      (heuristic_analysis chunk i).relevance_score ≤ 1) ∧
    (heuristic_analysis "prix: 999€, promotion" 0).content_type = JVal.str "pricing" ∧
    (heuristic_analysis "prix: 999€, promotion" 0).priority = 2 ∧
    (heuristic_analysis "prix: 999€, promotion" 0).contains_pricing = JVal.bool true := by
  refine ⟨?_, by decide, by decide, by decide⟩
  intro chunk i
  have hbound : 0 ≤ min 1 ((chunk.length : Rat) / 1000
      + (if decide (2 ≤ kwCount specs_keywords (pyLower chunk.data)) = true then mkRat 3 10 else 0)
      + (if (pricing_keywords.any (fun kw => containsSub kw.data (pyLower chunk.data))
            || priceRegex chunk.data) = true then mkRat 1 5 else 0)
      + (if decide (1 ≤ kwCount review_keywords (pyLower chunk.data)) = true then mkRat 3 10 else 0))
      ∧ min 1 ((chunk.length : Rat) / 1000
      + (if decide (2 ≤ kwCount specs_keywords (pyLower chunk.data)) = true then mkRat 3 10 else 0)
      + (if (pricing_keywords.any (fun kw => containsSub kw.data (pyLower chunk.data))
            || priceRegex chunk.data) = true then mkRat 1 5 else 0)
      + (if decide (1 ≤ kwCount review_keywords (pyLower chunk.data)) = true then mkRat 3 10 else 0)) ≤ 1 := by
    constructor
    · refine le_min (by norm_num) ?_
      have h1 : (0:Rat) ≤ (chunk.length : Rat) / 1000 := by positivity
      have h2 : (0:Rat) ≤ (if decide (2 ≤ kwCount specs_keywords (pyLower chunk.data)) = true then mkRat 3 10 else 0) := by
        split <;> simp [Rat.mkRat_eq_div] <;> norm_num
      have h3 : (0:Rat) ≤ (if (pricing_keywords.any (fun kw => containsSub kw.data (pyLower chunk.data))
            || priceRegex chunk.data) = true then mkRat 1 5 else 0) := by
        split <;> simp [Rat.mkRat_eq_div] <;> norm_num
      have h4 : (0:Rat) ≤ (if decide (1 ≤ kwCount review_keywords (pyLower chunk.data)) = true then mkRat 3 10 else 0) := by
        split <;> simp [Rat.mkRat_eq_div] <;> norm_num
      exact add_nonneg (add_nonneg (add_nonneg h1 h2) h3) h4
    · exact min_le_left _ _
  constructor
  · show (heuristic_analysis chunk i).content_type = JVal.str (heuristicSpecRef chunk).1
    unfold heuristic_analysis heuristicSpecRef
    simp only [pricing_flag_eq]
    by_cases h3 : 3 ≤ kwCount specs_keywords (pyLower chunk.data)
    · have h2 : 2 ≤ kwCount specs_keywords (pyLower chunk.data) := by omega
      simp [h2, h3]
    · by_cases hcs : 2 ≤ kwCount specs_keywords (pyLower chunk.data) <;> simp [hcs, h3]
  constructor
  · show (heuristic_analysis chunk i).priority = (heuristicSpecRef chunk).2.1
    unfold heuristic_analysis heuristicSpecRef
    simp only [pricing_flag_eq]
    by_cases h3 : 3 ≤ kwCount specs_keywords (pyLower chunk.data)
    · have h2 : 2 ≤ kwCount specs_keywords (pyLower chunk.data) := by omega
      simp [h2, h3]
    · by_cases hcs : 2 ≤ kwCount specs_keywords (pyLower chunk.data) <;> simp [hcs, h3]
  constructor
  · show (heuristic_analysis chunk i).relevance_score = (heuristicSpecRef chunk).2.2
    unfold heuristic_analysis heuristicSpecRef
    simp only [Bool.or_eq_true, decide_eq_true_eq]
  constructor
  · show 0 ≤ (heuristic_analysis chunk i).relevance_score
    unfold heuristic_analysis
    exact hbound.1
  · show (heuristic_analysis chunk i).relevance_score ≤ 1
    unfold heuristic_analysis
    exact hbound.2

/-- C5.  Evaluation of `detect_website_type` exhibiting the shadowing
bug: the known-domain loop compares the pattern lists with themselves,
so the first pattern entry (review) always matches and every call
returns `review` — for the e-commerce domain amazon.fr (the spec calls
for `ecommerce`) and for an unknown domain with a neutral content
sample (the spec calls for `general`) alike. -/
theorem detect_website_type_shadowing_bug :
    detect_website_type "https://amazon.fr/item" "" = WebsiteType.review ∧
    detect_website_type "https://amazon.fr/item" "" ≠ WebsiteType.ecommerce ∧
    detect_website_type "https://nosuchsite.example/x" "plain text sample" = WebsiteType.review ∧
    detect_website_type "https://nosuchsite.example/x" "plain text sample" ≠ WebsiteType.general ∧
    (∀ url content, detect_website_type url content = WebsiteType.review) := by
  refine ⟨by decide, by decide, by decide, by decide, ?_⟩
  intro url content
  rfl

/-! Pass 1 and pass 2 of the extraction pipeline.  The extraction
capability (`llm_provider.extract`) is a pure function from content,
instruction and output format to either a JSON value or an error
(`Except.error` models a raised exception).  The `ThreadPoolExecutor`
fan-out/fan-in of the source, whose coordinator re-sorts results by
`chunk_index`, is modelled as an in-order sequential map. -/

/-- Extraction capability contract: `extract(content, instruction,
output_format)`. -/
abbrev Provider := String → String → String → Except String JVal

/-- Python `float(v)` on a JSON value.  Numeric strings (which Python
`float` would parse) are not modelled and count as a conversion
failure, taking the heuristic fallback; this affects only which pass-1
analyses fall back, and no theorem quantifies over such responses. -/
def jToRat : JVal → Option Rat
  | .num q => some q
  | .bool b => some (if b then 1 else 0)
  | _ => none

/-- Python `int(v)` on a JSON value (truncation toward zero). -/
def jToInt : JVal → Option Int
  | .num q => some (q.num.tdiv (q.den : Int))
  | .bool b => some (if b then 1 else 0)
  | _ => none

/-- JSON string extraction. -/
def jToStr : JVal → Option String
  | .str s => some s
  | _ => none

/-- Python truthiness of a JSON value. -/
def pyTruthy : JVal → Bool
  | .null => false
  | .bool b => b
  | .num q => decide (q ≠ 0)
  | .str s => decide (s ≠ "")
  | .arr l => decide (l ≠ [])
  | .obj d => decide (d ≠ [])

mutual

/-- Python `repr()` of a JSON value, used only to render a non-string
`content_type` into the text of the fallback extraction prompt
(f-string interpolation).  Rationals render as `Rat`s rather than
Python float decimals — a prompt-text-only approximation that no
control flow and no theorem depends on. -/
def pyReprJ : JVal → String
  | .null => "None"
  | .bool b => if b then "True" else "False"
  | .num q => toString q
  | .str s => "\x27" ++ s ++ "\x27"
  | .arr l => "[" ++ pyReprList l ++ "]"
  | .obj d => "\x7b" ++ pyReprObj d ++ "\x7d"

def pyReprList : List JVal → String
  | [] => ""
  | [v] => pyReprJ v
  | v :: rest => pyReprJ v ++ ", " ++ pyReprList rest

def pyReprObj : List (String × JVal) → String
  | [] => ""
  | [kv] => "\x27" ++ kv.1 ++ "\x27: " ++ pyReprJ kv.2
  | kv :: rest => "\x27" ++ kv.1 ++ "\x27: " ++ pyReprJ kv.2 ++ ", " ++ pyReprObj rest

end

/-- Python `str()` of a JSON value (a string interpolates as itself,
containers via their repr). -/
def pyStrJ : JVal → String
  | .str s => s
  | v => pyReprJ v

/-- Canonical form of a Python-hashable JSON value under Python `==`
(`True == 1`, `False == 0`, int and float compare by value); `none` for
the unhashable values (lists and dicts), which never reach a dict key
comparison — the dict operation raises `TypeError` on them first. -/
def canonKey : JVal → Option JVal
  | .null => some .null
  | .bool b => some (.num (if b then 1 else 0))
  | .num q => some (.num q)
  | .str s => some (.str s)
  | _ => none

/-- Python `==` as used on dict keys. -/
def pyKeyEq (a b : JVal) : Bool :=
  match canonKey a, canonKey b with
  | some c1, some c2 => decide (c1 = c2)
  | _, _ => false

/-- Hashable JSON values (Python dict keys and set members): everything
except lists and dicts. -/
def hashableJ : JVal → Bool
  | .arr _ => false
  | .obj _ => false
  | _ => true

theorem pyKeyEq_symm (a b : JVal) : pyKeyEq a b = pyKeyEq b a := by
  unfold pyKeyEq
  cases canonKey a <;> cases canonKey b <;> simp [eq_comm]

theorem pyKeyEq_eq_true_iff {a b : JVal} :
    pyKeyEq a b = true ↔ ∃ c, canonKey a = some c ∧ canonKey b = some c := by
  unfold pyKeyEq
  cases ha : canonKey a with
  | none => simp
  | some c1 =>
    cases hb : canonKey b with
    | none => simp
    | some c2 =>
      simp only [decide_eq_true_eq, Option.some.injEq]
      constructor
      · intro h
        exact ⟨c2, h, rfl⟩
      · rintro ⟨c, hc1, hc2⟩
        rw [hc1, hc2]

theorem pyKeyEq_trans {a b c : JVal} (h1 : pyKeyEq a b = true)
    (h2 : pyKeyEq b c = true) : pyKeyEq a c = true := by
  obtain ⟨x, hax, hbx⟩ := pyKeyEq_eq_true_iff.mp h1
  obtain ⟨y, hby, hcy⟩ := pyKeyEq_eq_true_iff.mp h2
  rw [hbx] at hby
  injection hby with hby
  exact pyKeyEq_eq_true_iff.mpr ⟨y, hby ▸ hax, hcy⟩

/-- The two keys matched by one comparison match the same keys. -/
theorem pyKeyEq_congr_right {t t2 : JVal} (h : pyKeyEq t t2 = true) (k : JVal) :
    pyKeyEq k t = pyKeyEq k t2 := by
  cases hkt : pyKeyEq k t with
  | true => exact (pyKeyEq_trans hkt h).symm
  | false =>
    cases hkt2 : pyKeyEq k t2 with
    | true =>
      have ht2t : pyKeyEq t2 t = true := by
        rw [pyKeyEq_symm t2 t]
        exact h
      exact (((pyKeyEq_trans hkt2 ht2t).symm.trans hkt)).symm
    | false => rfl

theorem pyKeyEq_str_right {k : JVal} {s : String} :
    pyKeyEq k (JVal.str s) = true ↔ k = JVal.str s := by
  cases k <;> simp [pyKeyEq, canonKey]

theorem pyKeyEq_str_right_false {k : JVal} {s : String} (h : k ≠ JVal.str s) :
    pyKeyEq k (JVal.str s) = false := by
  cases hb : pyKeyEq k (JVal.str s) with
  | false => rfl
  | true => exact absurd (pyKeyEq_str_right.mp hb) h

theorem pyKeyEq_str_str (a b : String) :
    pyKeyEq (JVal.str a) (JVal.str b) = decide (a = b) := by
  simp [pyKeyEq, canonKey]

/-- Construction of a `ChunkAnalysis` from a provider JSON object that
contains the key `content_type` (the body of the `isinstance` branch of
`_analyze_single_chunk`).  `content_type`, the three `contains_*`
fields and `key_topics` keep the raw JSON values exactly as
`result.get(...)` stores them; only `relevance_score` and `priority`
are converted (`float(...)`, `int(...)`), and a conversion failure
(`none`) is mapped by the caller to the heuristic fallback like the
`ValueError`/`TypeError` it raises in Python. -/
def analysisOfJson (d : Dict) (index : Nat) : Option ChunkAnalysis := do
  let ctv ← lookupD "content_type" d
  let rs ← jToRat ((lookupD "relevance_score" d).getD (.num (mkRat 1 2)))
  let pr ← jToInt ((lookupD "priority" d).getD (.num 3))
  some { chunk_index := index
         content_type := ctv
         relevance_score := rs
         contains_specs := (lookupD "contains_specs" d).getD (.bool false)
         contains_pricing := (lookupD "contains_pricing" d).getD (.bool false)
         contains_review := (lookupD "contains_review" d).getD (.bool false)
         key_topics := (lookupD "key_topics" d).getD (.arr [])
         priority := pr }

/-- EnhancedDataExtractor._create_analysis_prompt. -/
def create_analysis_prompt (website_type : WebsiteType) (original_query : String) : String :=
  let base_prompt :=
    "Analyse ce fragment de texte et détermine son contenu. Réponds uniquement avec un objet JSON valide.\n\nRequête originale de l\x27utilisateur: "
    ++ original_query
    ++ "\n\nStructure JSON attendue:\n\x7b\n  \"content_type\": \"specs|pricing|review|product_list|general\",\n  \"relevance_score\": 0.0-1.0,\n  \"contains_specs\": true/false,\n  \"contains_pricing\": true/false,\n  \"contains_review\": true/false,\n  \"key_topics\": [\"topic1\", \"topic2\"],\n  \"priority\": 1-3\n\x7d\n\n"
  match website_type with
  | .review => base_prompt
      ++ "\nPour un site de test/review, identifie particulièrement:\n- Spécifications techniques (specs)\n- Points forts/faibles (review)\n- Notes/scores (review)\n- Prix mentionnés (pricing)\n"
  | .ecommerce => base_prompt
      ++ "\nPour un site e-commerce, identifie particulièrement:\n- Listes de produits (product_list)\n- Prix et promotions (pricing)\n- Caractéristiques produits (specs)\n- Disponibilité (general)\n"
  | _ => base_prompt

/-- EnhancedDataExtractor._analyze_single_chunk: provider call guarded by
try/except; any error or malformed result falls back to the heuristic. -/
def analyze_single_chunk (provider : Provider) (chunk : String) (index : Nat)
    (prompt : String) : ChunkAnalysis :=
  let full_prompt := prompt ++ "\n\nTexte à analyser:\n" ++ chunk.take 2000 ++ "..."
  match provider chunk full_prompt "json" with
  | .ok (.obj d) =>
    match analysisOfJson d index with
    | some a => a
    | none => heuristic_analysis chunk index
  | _ => heuristic_analysis chunk index

/-- EnhancedDataExtractor.analyze_chunks_first_pass: classify every chunk;
worker-pool completion order plus the final re-sort by `chunk_index` is
modelled as an in-order map.  The worker-exception branch (which would
substitute a default analysis of content type `"unknown"`) is
unreachable here because `_analyze_single_chunk` already catches every
provider error itself and its heuristic fallback is total. -/
def analyze_chunks_first_pass (chunks : List String) (website_type : WebsiteType)
    (provider : Provider) (query : String) : List ChunkAnalysis :=
  let prompt := create_analysis_prompt website_type query
  chunks.enum.map (fun ic => analyze_single_chunk provider ic.2 ic.1 prompt)

/-- EnhancedDataExtractor._create_specialized_extraction_prompt.  The
four named branches compare the raw `content_type` value with string
literals (Python `==`, false for every non-string value); the fallback
branch interpolates the value itself into the prompt text. -/
def create_specialized_extraction_prompt (content_type : JVal)
    (website_type : WebsiteType) (original_query : String) : String :=
  let base_instruction := "Requête utilisateur: " ++ original_query ++ "\n\n"
  if content_type = .str "specs" ∧ website_type = .review then
    base_instruction ++ "Extrait uniquement les spécifications techniques de ce texte.\nStructure JSON attendue:\n\x7b\n  \"ecran\": \x7b\"taille\": \"\", \"resolution\": \"\", \"technologie\": \"\"\x7d,\n  \"processeur\": \x7b\"modele\": \"\", \"frequence\": \"\"\x7d,\n  \"memoire\": \x7b\"ram\": \"\", \"stockage\": \"\"\x7d,\n  \"photo\": \x7b\"principal\": \"\", \"ultra_grand_angle\": \"\", \"zoom\": \"\"\x7d,\n  \"batterie\": \x7b\"capacite\": \"\", \"charge_rapide\": \"\"\x7d,\n  \"autres\": \x7b\"os\": \"\", \"connectivite\": []\x7d\n\x7d"
  else if content_type = .str "review" ∧ website_type = .review then
    base_instruction ++ "Extrait les éléments d\x27évaluation de ce texte.\nStructure JSON attendue:\n\x7b\n  \"points_forts\": [\"point 1\", \"point 2\"],\n  \"points_faibles\": [\"point 1\", \"point 2\"],\n  \"note_globale\": \"\",\n  \"verdict\": \"\"\n\x7d"
  else if content_type = .str "pricing" then
    base_instruction ++ "Extrait les informations de prix de ce texte.\nStructure JSON attendue:\n\x7b\n  \"prix_principal\": \"\",\n  \"prix_min\": \"\",\n  \"prix_max\": \"\",\n  \"promotions\": [\"promo 1\", \"promo 2\"],\n  \"disponibilite\": \"\"\n\x7d"
  else if content_type = .str "product_list" ∧ website_type = .ecommerce then
    base_instruction ++ "Extrait la liste des produits de ce texte.\nStructure JSON attendue:\n\x7b\n  \"produits\": [\n    \x7b\"nom\": \"\", \"prix\": \"\", \"description\": \"\"\x7d,\n    \x7b\"nom\": \"\", \"prix\": \"\", \"description\": \"\"\x7d\n  ]\n\x7d"
  else
    base_instruction ++ "Extrait les informations pertinentes de ce texte de type \x27"
      ++ pyStrJ content_type
      ++ "\x27.\nRéponds avec un objet JSON structuré contenant les informations importantes."

/-- Lexicographic preorder used by pass 2: priority ascending, then
relevance score descending (Python key `(x.priority, -x.relevance_score)`). -/
def analysisLE (a b : ChunkAnalysis) : Prop :=
  a.priority < b.priority ∨ (a.priority = b.priority ∧ b.relevance_score ≤ a.relevance_score)

instance analysisLE.decidable : DecidableRel analysisLE := fun a b =>
  inferInstanceAs (Decidable (a.priority < b.priority
    ∨ (a.priority = b.priority ∧ b.relevance_score ≤ a.relevance_score)))

instance analysisLE.total : IsTotal ChunkAnalysis analysisLE := by
  constructor
  intro a b
  unfold analysisLE
  rcases lt_trichotomy a.priority b.priority with h | h | h
  · exact Or.inl (Or.inl h)
  · rcases le_total a.relevance_score b.relevance_score with hr | hr
    · exact Or.inr (Or.inr ⟨h.symm, hr⟩)
    · exact Or.inl (Or.inr ⟨h, hr⟩)
  · exact Or.inr (Or.inl h)

instance analysisLE.trans : IsTrans ChunkAnalysis analysisLE := by
  constructor
  intro a b c hab hbc
  unfold analysisLE at *
  rcases hab with h1 | ⟨h1, h1r⟩ <;> rcases hbc with h2 | ⟨h2, h2r⟩
  · exact Or.inl (h1.trans h2)
  · exact Or.inl (h2 ▸ h1)
  · exact Or.inl (h1 ▸ h2)
  · exact Or.inr ⟨h1.trans h2, h2r.trans h1r⟩

/-- Python `sorted(analyses, key=lambda x: (x.priority, -x.relevance_score))`:
a stable sort, modelled by insertion sort over `analysisLE`. -/
def sortAnalyses (analyses : List ChunkAnalysis) : List ChunkAnalysis :=
  List.insertionSort analysisLE analyses

/-- Python slice `l[:n]` with a possibly negative bound. -/
def pySliceTo {α : Type} (l : List α) (n : Int) : List α :=
  if 0 ≤ n then l.take n.toNat else l.take (l.length - (-n).toNat)

/-- Sorting and optional capping step of
`extract_from_prioritized_chunks` (the Python guard `if max_chunks:` is
falsy for `None` and for `0`). -/
def prioritizeAnalyses (analyses : List ChunkAnalysis) (max_chunks : Option Int) :
    List ChunkAnalysis :=
  let sorted_analyses := sortAnalyses analyses
  match max_chunks with
  | some m => if m ≠ 0 then pySliceTo sorted_analyses m else sorted_analyses
  | none => sorted_analyses

/-- Ordered-dict lookup keyed by raw JSON values under Python `==`. -/
def lookupG {β : Type} (k : JVal) : List (JVal × β) → Option β
  | [] => none
  | kv :: rest => if pyKeyEq kv.1 k then some kv.2 else lookupG k rest

/-- Append `x` to the list stored under `t` in an insertion-ordered dict
of lists whose keys are raw JSON values compared with Python `==` (the
first-inserted key object is kept, as Python dicts do). -/
def appendGroup {β : Type} : List (JVal × List β) → JVal → β → List (JVal × List β)
  | [], t, x => [(t, [x])]
  | (k, l) :: rest, t, x =>
    if pyKeyEq k t then (k, l ++ [x]) :: rest else (k, l) :: appendGroup rest t x

/-- Grouping step of pass 2: the membership test
`if content_type not in chunks_by_type:` hashes the raw content type
and raises `TypeError` on an unhashable value (list or dict) before
`chunks[analysis.chunk_index]` is evaluated; an out-of-range
`chunk_index` then raises `IndexError`. -/
def build_chunks_by_type (chunks : List String) (sorted_analyses : List ChunkAnalysis) :
    Except String (List (JVal × List (String × ChunkAnalysis))) :=
  sorted_analyses.foldlM (fun acc a =>
    if hashableJ a.content_type then
      match chunks.get? a.chunk_index with
      | some c => Except.ok (appendGroup acc a.content_type (c, a))
      | none => Except.error "IndexError"
    else Except.error "TypeError: unhashable type") []

/-- Per-group extraction loop of pass 2: every provider error or
non-dict result is caught and the chunk skipped. -/
def extract_group (provider : Provider) (prompt : String)
    (l : List (String × ChunkAnalysis)) : List Dict :=
  l.filterMap (fun ca => match provider ca.1 prompt "json" with
    | .ok (.obj d) => some d
    | _ => none)

/-- Collection of the non-empty per-type result lists of pass 2. -/
def build_extraction_results (provider : Provider) (website_type : WebsiteType)
    (original_query : String)
    (grouped : List (JVal × List (String × ChunkAnalysis))) : List (JVal × List Dict) :=
  grouped.foldl (fun er g =>
    let tr := extract_group provider
      (create_specialized_extraction_prompt g.1 website_type original_query) g.2
    if tr.isEmpty then er else er ++ [(g.1, tr)]) []

/-- One `(key, value)` step of the specs merge of
`_aggregate_extraction_results`. -/
def specsStep (specs : Dict) (kv : String × JVal) : Dict :=
  match lookupD kv.1 specs with
  | none => setKey specs kv.1 kv.2
  | some v0 =>
    match kv.2, v0 with
    | .obj src, .obj dst => setKey specs kv.1 (.obj (pyUpdate dst src))
    | _, _ => specs

/-- Merge of one specs result dict into the accumulator. -/
def specsMerge1 (specs r : Dict) : Dict := r.foldl specsStep specs

/-- Specs aggregation: fold of `specsMerge1` over all specs results. -/
def specsAgg (results : List Dict) : Dict := results.foldl specsMerge1 []

/-- Python `acc.extend(v)`: elements of a list, characters of a string,
keys of a dict; anything else raises `TypeError`. -/
def pyExtend (acc : List JVal) (v : JVal) : Except String (List JVal) :=
  match v with
  | .arr l => .ok (acc ++ l)
  | .str s => .ok (acc ++ s.data.map (fun c => JVal.str (String.singleton c)))
  | .obj d => .ok (acc ++ d.map (fun kv => JVal.str kv.1))
  | _ => .error "TypeError: not iterable"

/-- De-duplication keeping first occurrences. -/
def dedupFold (l : List JVal) : List JVal :=
  l.foldl (fun acc x => if x ∈ acc then acc else acc ++ [x]) []

/-- Python `list(set(l))`: requires hashable (non-list, non-dict)
elements; only the resulting element set is specified, modelled by
keeping first occurrences. -/
def pySetDedup (l : List JVal) : Except String (List JVal) :=
  if l.all hashableJ then .ok (dedupFold l)
  else .error "TypeError: unhashable"

/-- String contents of a list of JSON values; `none` when an element is
not a string. -/
def strListOf : List JVal → Option (List String)
  | [] => some []
  | JVal.str s :: rest => (strListOf rest).map (fun ss => s :: ss)
  | _ => none

/-- Python `" ".join(l)`: every element must be a string. -/
def pyJoinSpace (l : List JVal) : Except String String :=
  match strListOf l with
  | some ss => .ok (String.intercalate " " ss)
  | none => .error "TypeError: join"

/-- Field-collection loop of the review branch of
`_aggregate_extraction_results`: accumulates points_forts,
points_faibles, note and verdict values over all review results. -/
def reviewStep1 (st : List JVal × List JVal × List JVal × List JVal) (r : Dict) :
    Except String (List JVal × List JVal × List JVal × List JVal) := do
  let pf ← match lookupD "points_forts" r with
    | some v => pyExtend st.1 v
    | none => Except.ok st.1
  let pfa ← match lookupD "points_faibles" r with
    | some v => pyExtend st.2.1 v
    | none => Except.ok st.2.1
  let notes := match lookupD "note_globale" r with
    | some v => st.2.2.1 ++ [v]
    | none => st.2.2.1
  let verdicts := match lookupD "verdict" r with
    | some v => st.2.2.2 ++ [v]
    | none => st.2.2.2
  Except.ok (pf, pfa, notes, verdicts)

/-- Field-collection loop of the review branch (see `reviewStep1`). -/
def reviewCollect (results : List Dict) :
    Except String (List JVal × List JVal × List JVal × List JVal) :=
  results.foldlM reviewStep1 ([], [], [], [])

/-- Review branch of `_aggregate_extraction_results`: the dict merged
into the output by `aggregated.update`, with de-duplicated list fields,
first collected note (null when none) and the space-join of all
collected verdict values (null when none). -/
def reviewAgg (results : List Dict) : Except String Dict := do
  let st ← reviewCollect results
  let pfd ← pySetDedup st.1
  let pfad ← pySetDedup st.2.1
  let verdictVal ←
    if st.2.2.2.isEmpty then pure JVal.null
    else do
      let s ← pyJoinSpace st.2.2.2
      pure (JVal.str s)
  Except.ok [("points_forts", .arr pfd), ("points_faibles", .arr pfad),
    ("note_globale", st.2.2.1.headD JVal.null),
    ("verdict", verdictVal)]

/-- Pricing branch of `_aggregate_extraction_results`: truthy primary
prices collected into a list, promotion lists concatenated. -/
def pricingAgg (results : List Dict) : Except String Dict := do
  let st ← results.foldlM (fun (st : List JVal × List JVal) r => do
    let prix := match lookupD "prix_principal" r with
      | some v => if pyTruthy v then st.1 ++ [v] else st.1
      | none => st.1
    let promos ← match lookupD "promotions" r with
      | some v => pyExtend st.2 v
      | none => Except.ok st.2
    Except.ok (prix, promos)) ([], [])
  Except.ok [("prix", .arr st.1), ("promotions", .arr st.2)]

/-- Product-list branch of `_aggregate_extraction_results`. -/
def productAgg (results : List Dict) : Except String (List JVal) :=
  results.foldlM (fun acc r => match lookupD "produits" r with
    | some v => pyExtend acc v
    | none => Except.ok acc) []

/-- General branch of `_aggregate_extraction_results`: shallow dict
update, later result wins. -/
def generalAgg (results : List Dict) : Dict := results.foldl pyUpdate []

/-- Specs block of `_aggregate_extraction_results`:
`aggregated["caracteristiques_techniques"] = specs` when specs results
exist. -/
def specsStepA (er : List (JVal × List Dict)) (aggregated : Dict) : Dict :=
  match lookupG (JVal.str "specs") er with
  | some rs => setKey aggregated "caracteristiques_techniques" (.obj (specsAgg rs))
  | none => aggregated

/-- Review block of `_aggregate_extraction_results`:
`aggregated.update({...})` when review results exist. -/
def reviewStepA (er : List (JVal × List Dict)) (aggregated : Dict) : Except String Dict :=
  match lookupG (JVal.str "review") er with
  | some rs => do
      let rv ← reviewAgg rs
      pure (pyUpdate aggregated rv)
  | none => pure aggregated

/-- Pricing block of `_aggregate_extraction_results`. -/
def pricingStepA (er : List (JVal × List Dict)) (aggregated : Dict) : Except String Dict :=
  match lookupG (JVal.str "pricing") er with
  | some rs => do
      let pv ← pricingAgg rs
      pure (setKey aggregated "prix_et_disponibilite" (.obj pv))
  | none => pure aggregated

/-- Product-list block of `_aggregate_extraction_results`. -/
def productStepA (er : List (JVal × List Dict)) (aggregated : Dict) : Except String Dict :=
  match lookupG (JVal.str "product_list") er with
  | some rs => do
      let produits ← productAgg rs
      pure (setKey aggregated "produits" (.arr produits))
  | none => pure aggregated

/-- General block of `_aggregate_extraction_results`:
`aggregated["informations_generales"] = general_info` when the shallow
merge of the general results is non-empty. -/
def generalStepA (er : List (JVal × List Dict)) (aggregated : Dict) : Dict :=
  match lookupG (JVal.str "general") er with
  | some rs =>
      let gi := generalAgg rs
      if gi.isEmpty then aggregated else setKey aggregated "informations_generales" (.obj gi)
  | none => aggregated

/-- EnhancedDataExtractor._aggregate_extraction_results: the five
per-type merge blocks applied in source order to the accumulator.  The
website type and query parameters are unused by the source body as
well. -/
def aggregate_extraction_results (extraction_results : List (JVal × List Dict))
    (website_type : WebsiteType) (original_query : String) : Except String Dict := do
  let a1 := specsStepA extraction_results []
  let a2 ← reviewStepA extraction_results a1
  let a3 ← pricingStepA extraction_results a2
  let a4 ← productStepA extraction_results a3
  pure (generalStepA extraction_results a4)

/-- EnhancedDataExtractor.extract_from_prioritized_chunks. -/
def extract_from_prioritized_chunks (chunks : List String)
    (analyses : List ChunkAnalysis) (website_type : WebsiteType)
    (original_query : String) (provider : Provider)
    (max_chunks : Option Int := none) : Except String Dict := do
  let sorted_analyses := prioritizeAnalyses analyses max_chunks
  let chunks_by_type ← build_chunks_by_type chunks sorted_analyses
  let extraction_results :=
    build_extraction_results provider website_type original_query chunks_by_type
  aggregate_extraction_results extraction_results website_type original_query

/-- enhanced_extract_data_from_chunks: the two-pass entry point
(`max_workers` only sizes the worker pool and is irrelevant to the
sequential model). -/
def enhanced_extract_data_from_chunks (chunks : List String) (query : String)
    (provider : Provider) (url : String := "") (max_workers : Nat := 4)
    (max_chunks_per_type : Nat := 5) : Except String Dict :=
  let content_sample := String.intercalate " " (chunks.take 3)
  let website_type := detect_website_type url content_sample
  let analyses := analyze_chunks_first_pass chunks website_type provider query
  extract_from_prioritized_chunks chunks analyses website_type query provider
    (some ((max_chunks_per_type : Int) * 4))

/-! Association-list and `Except` lemmas shared by the aggregation
proofs. -/

theorem bindOk {α β : Type} (a : α) (f : α → Except String β) :
    (Except.ok a >>= f) = f a := rfl

theorem bindErr {α β : Type} (e : String) (f : α → Except String β) :
    ((Except.error e : Except String α) >>= f) = Except.error e := rfl

/-- Keys of a dict, in insertion order. -/
def keysOf (d : Dict) : List String := d.map Prod.fst

theorem lookupD_eq_none_iff (k : String) (d : Dict) :
    lookupD k d = none ↔ k ∉ keysOf d := by
  induction d with
  | nil => simp [lookupD, keysOf]
  | cons kv rest ih =>
    show (if kv.1 = k then some kv.2 else lookupD k rest) = none ↔ k ∉ keysOf (kv :: rest)
    have hks : keysOf (kv :: rest) = kv.1 :: keysOf rest := rfl
    rw [hks]
    by_cases h : kv.1 = k
    · subst h
      simp
    · rw [if_neg h, ih, List.mem_cons]
      constructor
      · intro hnot hor
        rcases hor with h1 | h2
        · exact h h1.symm
        · exact hnot h2
      · intro hnot h2
        exact hnot (Or.inr h2)

theorem lookupD_some_mem {k : String} {d : Dict} {v : JVal}
    (h : lookupD k d = some v) : (k, v) ∈ d := by
  induction d with
  | nil => simp [lookupD] at h
  | cons kv rest ih =>
    simp only [lookupD] at h
    by_cases hk : kv.1 = k
    · rw [if_pos hk] at h
      injection h with h
      have hkv : kv = (k, v) := by
        obtain ⟨k1, v1⟩ := kv
        simp only at hk h
        rw [hk, h]
      rw [hkv]
      exact List.mem_cons_self _ _
    · rw [if_neg hk] at h
      exact List.mem_cons_of_mem _ (ih h)

theorem lookupD_append (k : String) (d₁ d₂ : Dict) :
    lookupD k (d₁ ++ d₂) =
      match lookupD k d₁ with
      | some v => some v
      | none => lookupD k d₂ := by
  induction d₁ with
  | nil => simp [lookupD]
  | cons kv rest ih =>
    by_cases h : kv.1 = k <;> simp [lookupD, h, ih]

theorem setKey_eq_append {k : String} {d : Dict} (v : JVal)
    (h : lookupD k d = none) : setKey d k v = d ++ [(k, v)] := by
  induction d with
  | nil => simp [setKey]
  | cons kv rest ih =>
    simp only [lookupD] at h
    by_cases hk : kv.1 = k
    · simp [hk] at h
    · simp only [hk, if_false] at h
      simp [setKey, hk, ih h]

theorem pyUpdate_eq_append {d src : Dict} (hk : (keysOf src).Nodup)
    (h : ∀ kv ∈ src, lookupD kv.1 d = none) : pyUpdate d src = d ++ src := by
  induction src generalizing d with
  | nil => simp [pyUpdate]
  | cons kv rest ih =>
    show pyUpdate (setKey d kv.1 kv.2) rest = d ++ kv :: rest
    have h1 : lookupD kv.1 d = none := h kv (List.mem_cons_self _ _)
    rw [setKey_eq_append kv.2 h1]
    have hkc : kv.1 ∉ keysOf rest ∧ (keysOf rest).Nodup := by
      have hks : keysOf (kv :: rest) = kv.1 :: keysOf rest := rfl
      rw [hks] at hk
      exact ⟨(List.nodup_cons.1 hk).1, (List.nodup_cons.1 hk).2⟩
    have h2 : ∀ kv2 ∈ rest, lookupD kv2.1 (d ++ [(kv.1, kv.2)]) = none := by
      intro kv2 hm
      rw [lookupD_append]
      have hne : kv.1 ≠ kv2.1 := by
        intro hh
        exact hkc.1 (hh ▸ List.mem_map_of_mem Prod.fst hm)
      have hone : lookupD kv2.1 [(kv.1, kv.2)] = none := by
        simp [lookupD, hne]
      simp [h kv2 (List.mem_cons_of_mem _ hm), hone]
    have := ih hkc.2 h2
    rw [this, List.append_assoc]
    rfl

/-- Shape of the dict produced by the review branch: always exactly the
four review keys in order. -/
theorem reviewAgg_shape {rs : List Dict} {rv : Dict}
    (h : reviewAgg rs = .ok rv) :
    ∃ pfd pfad note vv,
      rv = [("points_forts", JVal.arr pfd), ("points_faibles", JVal.arr pfad),
        ("note_globale", note), ("verdict", vv)] := by
  unfold reviewAgg at h
  cases hc : reviewCollect rs with
  | error e => rw [hc, bindErr] at h; exact absurd h (by simp)
  | ok st =>
    rw [hc] at h
    simp only [bindOk] at h
    cases hd1 : pySetDedup st.1 with
    | error e => rw [hd1, bindErr] at h; exact absurd h (by simp)
    | ok pfd =>
      rw [hd1] at h
      simp only [bindOk] at h
      cases hd2 : pySetDedup st.2.1 with
      | error e => rw [hd2, bindErr] at h; exact absurd h (by simp)
      | ok pfad =>
        rw [hd2] at h
        simp only [bindOk] at h
        by_cases he : st.2.2.2.isEmpty
        · simp only [he, if_true, pure, Except.pure, bindOk] at h
          cases h
          exact ⟨pfd, pfad, _, _, rfl⟩
        · simp only [he, if_false, Bool.false_eq_true] at h
          cases hj : pyJoinSpace st.2.2.2 with
          | error e => rw [hj, bindErr] at h; exact absurd h (by simp)
          | ok s =>
            rw [hj] at h
            simp only [bindOk, pure, Except.pure, bindOk] at h
            cases h
            exact ⟨pfd, pfad, _, _, rfl⟩

/-- Specs contribution to the aggregated output. -/
def specsPart (er : List (JVal × List Dict)) : Dict :=
  match lookupG (JVal.str "specs") er with
  | some rs => [("caracteristiques_techniques", JVal.obj (specsAgg rs))]
  | none => []

/-- General contribution to the aggregated output. -/
def generalPart (er : List (JVal × List Dict)) : Dict :=
  match lookupG (JVal.str "general") er with
  | some rs =>
    if (generalAgg rs).isEmpty then [] else [("informations_generales", JVal.obj (generalAgg rs))]
  | none => []

/-- Review contribution to the aggregated output as an `Except` value
(empty when no review results exist). -/
def reviewPartE (er : List (JVal × List Dict)) : Except String Dict :=
  match lookupG (JVal.str "review") er with
  | some rs => reviewAgg rs
  | none => pure []

/-- Pricing contribution to the aggregated output. -/
def pricingPartE (er : List (JVal × List Dict)) : Except String Dict :=
  match lookupG (JVal.str "pricing") er with
  | some rs => do
      let pv ← pricingAgg rs
      pure [("prix_et_disponibilite", JVal.obj pv)]
  | none => pure []

/-- Product-list contribution to the aggregated output. -/
def productPartE (er : List (JVal × List Dict)) : Except String Dict :=
  match lookupG (JVal.str "product_list") er with
  | some rs => do
      let pls ← productAgg rs
      pure [("produits", JVal.arr pls)]
  | none => pure []

theorem reviewPartE_keys {er : List (JVal × List Dict)} {rv : Dict}
    (h : reviewPartE er = .ok rv) :
    ∀ k ∈ keysOf rv, k ∈ ["points_forts", "points_faibles", "note_globale", "verdict"] := by
  unfold reviewPartE at h
  cases hr : lookupG (JVal.str "review") er with
  | none =>
    rw [hr] at h
    cases h
    simp [keysOf]
  | some rs =>
    rw [hr] at h
    obtain ⟨pfd, pfad, note, vv, rfl⟩ := reviewAgg_shape h
    simp [keysOf]

theorem specsStepA_eval (er : List (JVal × List Dict)) :
    specsStepA er [] = specsPart er := by
  unfold specsStepA specsPart
  cases lookupG (JVal.str "specs") er <;> simp [setKey]

theorem specsPart_keys (er : List (JVal × List Dict)) :
    ∀ k ∈ keysOf (specsPart er), k = "caracteristiques_techniques" := by
  unfold specsPart
  cases lookupG (JVal.str "specs") er <;> simp [keysOf]

theorem reviewStepA_eval (er : List (JVal × List Dict)) (acc : Dict)
    (hk : ∀ k ∈ ["points_forts", "points_faibles", "note_globale", "verdict"],
      lookupD k acc = none) :
    reviewStepA er acc = (do
      let rv ← reviewPartE er
      pure (acc ++ rv)) := by
  unfold reviewStepA reviewPartE
  cases hr : lookupG (JVal.str "review") er with
  | none => simp
  | some rs =>
    cases hra : reviewAgg rs with
    | error e => simp [hra]
    | ok rv =>
      obtain ⟨pfd, pfad, note, vv, rfl⟩ := reviewAgg_shape hra
      have hupd : pyUpdate acc
          [("points_forts", JVal.arr pfd), ("points_faibles", JVal.arr pfad),
            ("note_globale", note), ("verdict", vv)]
          = acc ++ [("points_forts", JVal.arr pfd), ("points_faibles", JVal.arr pfad),
            ("note_globale", note), ("verdict", vv)] := by
        apply pyUpdate_eq_append
        · simp [keysOf]
        · intro kv hm
          simp only [List.mem_cons, List.not_mem_nil, or_false] at hm
          rcases hm with rfl | rfl | rfl | rfl
          · exact hk _ (by simp)
          · exact hk _ (by simp)
          · exact hk _ (by simp)
          · exact hk _ (by simp)
      simp [hra, hupd]

theorem pricingStepA_eval (er : List (JVal × List Dict)) (acc : Dict)
    (hk : lookupD "prix_et_disponibilite" acc = none) :
    pricingStepA er acc = (do
      let pr ← pricingPartE er
      pure (acc ++ pr)) := by
  unfold pricingStepA pricingPartE
  cases hr : lookupG (JVal.str "pricing") er with
  | none => simp
  | some rs =>
    cases hra : pricingAgg rs with
    | error e => simp [hra]
    | ok pv => simp [hra, setKey_eq_append _ hk]

theorem productStepA_eval (er : List (JVal × List Dict)) (acc : Dict)
    (hk : lookupD "produits" acc = none) :
    productStepA er acc = (do
      let pl ← productPartE er
      pure (acc ++ pl)) := by
  unfold productStepA productPartE
  cases hr : lookupG (JVal.str "product_list") er with
  | none => simp
  | some rs =>
    cases hra : productAgg rs with
    | error e => simp [hra]
    | ok pls => simp [hra, setKey_eq_append _ hk]

theorem generalStepA_eval (er : List (JVal × List Dict)) (acc : Dict)
    (hk : lookupD "informations_generales" acc = none) :
    generalStepA er acc = acc ++ generalPart er := by
  unfold generalStepA generalPart
  cases hr : lookupG (JVal.str "general") er with
  | none => simp
  | some rs =>
    by_cases he : (generalAgg rs).isEmpty <;> simp only [he, if_true, if_false]
    · simp [he]
    · rw [setKey_eq_append _ hk]
      simp [he]

/-- Closed form of `_aggregate_extraction_results`: the output is the
concatenation of the five per-type contributions (review, pricing and
product-list failures propagate). -/
theorem aggregate_eval (er : List (JVal × List Dict)) (wt : WebsiteType) (q : String) :
    aggregate_extraction_results er wt q = (do
      let rv ← reviewPartE er
      let pr ← pricingPartE er
      let pl ← productPartE er
      pure (specsPart er ++ rv ++ pr ++ pl ++ generalPart er)) := by
  unfold aggregate_extraction_results
  simp only [specsStepA_eval]
  rw [reviewStepA_eval er (specsPart er) (by
    intro k hkm
    apply (lookupD_eq_none_iff _ _).2
    intro hmem
    have := specsPart_keys er k hmem
    subst this
    simp at hkm)]
  cases hrv : reviewPartE er with
  | error e => simp [bindErr]
  | ok rv =>
    simp only [pure_bind, bindOk]
    have hrvk := reviewPartE_keys hrv
    rw [pricingStepA_eval er (specsPart er ++ rv) (by
      apply (lookupD_eq_none_iff _ _).2
      simp only [keysOf, List.map_append, List.mem_append]
      rintro (hm | hm)
      · have := specsPart_keys er _ hm
        simp at this
      · have := hrvk _ hm
        simp at this)]
    cases hpr : pricingPartE er with
    | error e => simp [bindErr]
    | ok pr =>
      simp only [pure_bind, bindOk]
      have hprk : ∀ k ∈ keysOf pr, k = "prix_et_disponibilite" := by
        unfold pricingPartE at hpr
        cases hp2 : lookupG (JVal.str "pricing") er with
        | none =>
          rw [hp2] at hpr
          have : pr = [] := by
            have h2 : Except.ok ([] : Dict) = Except.ok pr := hpr
            injection h2 with h2
            exact h2.symm
          subst this
          simp [keysOf]
        | some rs =>
          rw [hp2] at hpr
          have hpr2 : (do
              let pv ← pricingAgg rs
              pure [("prix_et_disponibilite", JVal.obj pv)] : Except String Dict)
              = Except.ok pr := hpr
          cases hp3 : pricingAgg rs with
          | error e => rw [hp3, bindErr] at hpr2; exact absurd hpr2 (by simp)
          | ok pv =>
            rw [hp3] at hpr2
            simp only [bindOk] at hpr2
            have h2 : Except.ok [("prix_et_disponibilite", JVal.obj pv)] = Except.ok pr := hpr2
            injection h2 with h2
            subst h2
            simp [keysOf]
      rw [productStepA_eval er ((specsPart er ++ rv) ++ pr) (by
        apply (lookupD_eq_none_iff _ _).2
        simp only [keysOf, List.map_append, List.mem_append]
        rintro ((hm | hm) | hm)
        · have := specsPart_keys er _ hm
          simp at this
        · have := hrvk _ hm
          simp at this
        · have := hprk _ hm
          simp at this)]
      cases hpl : productPartE er with
      | error e => simp [bindErr]
      | ok pl =>
        simp only [pure_bind, bindOk]
        have hplk : ∀ k ∈ keysOf pl, k = "produits" := by
          unfold productPartE at hpl
          cases hp2 : lookupG (JVal.str "product_list") er with
          | none =>
            rw [hp2] at hpl
            have : pl = [] := by
              have h2 : Except.ok ([] : Dict) = Except.ok pl := hpl
              injection h2 with h2
              exact h2.symm
            subst this
            simp [keysOf]
          | some rs =>
            rw [hp2] at hpl
            have hpl2 : (do
                let pls ← productAgg rs
                pure [("produits", JVal.arr pls)] : Except String Dict)
                = Except.ok pl := hpl
            cases hp3 : productAgg rs with
            | error e => rw [hp3, bindErr] at hpl2; exact absurd hpl2 (by simp)
            | ok pls =>
              rw [hp3] at hpl2
              simp only [bindOk] at hpl2
              have h2 : Except.ok [("produits", JVal.arr pls)] = Except.ok pl := hpl2
              injection h2 with h2
              subst h2
              simp [keysOf]
        rw [generalStepA_eval er (((specsPart er ++ rv) ++ pr) ++ pl) (by
          apply (lookupD_eq_none_iff _ _).2
          simp only [keysOf, List.map_append, List.mem_append]
          rintro (((hm | hm) | hm) | hm)
          · have := specsPart_keys er _ hm
            simp at this
          · have := hrvk _ hm
            simp at this
          · have := hprk _ hm
            simp at this
          · have := hplk _ hm
            simp at this)]

/-- Corollary of `aggregate_eval`: a successful aggregation determines
the four sub-results and the concatenated output shape. -/
theorem aggregate_ok_parts {er : List (JVal × List Dict)} {wt : WebsiteType}
    {q : String} {d : Dict} (h : aggregate_extraction_results er wt q = .ok d) :
    ∃ rv pr pl, reviewPartE er = .ok rv ∧ pricingPartE er = .ok pr ∧
      productPartE er = .ok pl ∧
      d = specsPart er ++ rv ++ pr ++ pl ++ generalPart er := by
  rw [aggregate_eval] at h
  cases hrv : reviewPartE er with
  | error e => rw [hrv, bindErr] at h; exact absurd h (by simp)
  | ok rv =>
    rw [hrv, bindOk] at h
    cases hpr : pricingPartE er with
    | error e => rw [hpr, bindErr] at h; exact absurd h (by simp)
    | ok pr =>
      rw [hpr, bindOk] at h
      cases hpl : productPartE er with
      | error e => rw [hpl, bindErr] at h; exact absurd h (by simp)
      | ok pl =>
        rw [hpl, bindOk] at h
        have h2 : Except.ok (specsPart er ++ rv ++ pr ++ pl ++ generalPart er)
            = Except.ok d := h
        injection h2 with h2
        exact ⟨rv, pr, pl, rfl, rfl, rfl, h2.symm⟩

theorem lookupD_append_left_none {k : String} {d₁ : Dict} (d₂ : Dict)
    (h : lookupD k d₁ = none) : lookupD k (d₁ ++ d₂) = lookupD k d₂ := by
  rw [lookupD_append, h]

theorem dedupFold_mem (l : List JVal) (v : JVal) : v ∈ dedupFold l ↔ v ∈ l := by
  have aux : ∀ (l : List JVal) (acc : List JVal),
      v ∈ l.foldl (fun acc x => if x ∈ acc then acc else acc ++ [x]) acc
        ↔ v ∈ acc ∨ v ∈ l := by
    intro l
    induction l with
    | nil => simp
    | cons x rest ih =>
      intro acc
      show v ∈ rest.foldl _ (if x ∈ acc then acc else acc ++ [x]) ↔ _
      rw [ih]
      by_cases hx : x ∈ acc
      · simp only [hx, if_true, List.mem_cons]
        constructor
        · rintro (hv | hv)
          · exact Or.inl hv
          · exact Or.inr (Or.inr hv)
        · rintro (hv | hv | hv)
          · exact Or.inl hv
          · exact Or.inl (hv ▸ hx)
          · exact Or.inr hv
      · simp only [hx, if_false, List.mem_append, List.mem_singleton, List.mem_cons]
        tauto
  show v ∈ l.foldl (fun acc x => if x ∈ acc then acc else acc ++ [x]) [] ↔ v ∈ l
  rw [aux l []]
  simp

theorem dedupFold_nodup (l : List JVal) : (dedupFold l).Nodup := by
  have aux : ∀ (l : List JVal) (acc : List JVal), acc.Nodup →
      (l.foldl (fun acc x => if x ∈ acc then acc else acc ++ [x]) acc).Nodup := by
    intro l
    induction l with
    | nil => intro acc h; exact h
    | cons x rest ih =>
      intro acc h
      show (rest.foldl _ (if x ∈ acc then acc else acc ++ [x])).Nodup
      by_cases hx : x ∈ acc
      · rw [if_pos hx]; exact ih acc h
      · rw [if_neg hx]
        apply ih
        simp [List.nodup_append, h, hx]
  exact aux l [] List.nodup_nil

theorem pySetDedup_ok {l d : List JVal} (h : pySetDedup l = .ok d) :
    d = dedupFold l ∧ l.all hashableJ = true := by
  unfold pySetDedup at h
  by_cases hc : l.all hashableJ
  · rw [if_pos hc] at h
    injection h with h
    exact ⟨h.symm, hc⟩
  · rw [if_neg hc] at h
    exact absurd h (by simp)

/-- Reference collection of the elements of the JSON-array values
stored under `key` across the result dicts, in order. -/
def listField (key : String) : List Dict → List JVal
  | [] => []
  | r :: rest =>
    (match lookupD key r with | some (JVal.arr l) => l | _ => []) ++ listField key rest

theorem listField_mem (key : String) (results : List Dict) (v : JVal) :
    v ∈ listField key results
      ↔ ∃ r ∈ results, ∃ ll, lookupD key r = some (JVal.arr ll) ∧ v ∈ ll := by
  induction results with
  | nil => simp [listField]
  | cons r rest ih =>
    simp only [listField, List.mem_append, ih, List.mem_cons]
    constructor
    · rintro (hv | ⟨r2, hr2, ll, hl, hv⟩)
      · cases hkl : lookupD key r with
        | none => rw [hkl] at hv; simp at hv
        | some w =>
          cases w with
          | arr l => rw [hkl] at hv; exact ⟨r, Or.inl rfl, l, hkl, hv⟩
          | null => rw [hkl] at hv; simp at hv
          | bool b => rw [hkl] at hv; simp at hv
          | num n => rw [hkl] at hv; simp at hv
          | str s => rw [hkl] at hv; simp at hv
          | obj o => rw [hkl] at hv; simp at hv
      · exact ⟨r2, Or.inr hr2, ll, hl, hv⟩
    · rintro ⟨r2, hr2 | hr2, ll, hl, hv⟩
      · subst hr2
        rw [hl]
        exact Or.inl hv
      · exact Or.inr ⟨r2, hr2, ll, hl, hv⟩

/-- Evaluation of the review field-collection loop when the list fields
hold JSON arrays wherever present. -/
theorem reviewCollect_eval (results : List Dict)
    (h1 : ∀ r ∈ results, ∀ v, lookupD "points_forts" r = some v → ∃ l, v = JVal.arr l)
    (h2 : ∀ r ∈ results, ∀ v, lookupD "points_faibles" r = some v → ∃ l, v = JVal.arr l) :
    reviewCollect results = Except.ok
      (listField "points_forts" results, listField "points_faibles" results,
       results.filterMap (fun r => lookupD "note_globale" r),
       results.filterMap (fun r => lookupD "verdict" r)) := by
  have aux : ∀ (rs : List Dict)
      (hh1 : ∀ r ∈ rs, ∀ v, lookupD "points_forts" r = some v → ∃ l, v = JVal.arr l)
      (hh2 : ∀ r ∈ rs, ∀ v, lookupD "points_faibles" r = some v → ∃ l, v = JVal.arr l)
      (st : List JVal × List JVal × List JVal × List JVal),
      rs.foldlM reviewStep1 st = Except.ok
        (st.1 ++ listField "points_forts" rs, st.2.1 ++ listField "points_faibles" rs,
         st.2.2.1 ++ rs.filterMap (fun r => lookupD "note_globale" r),
         st.2.2.2 ++ rs.filterMap (fun r => lookupD "verdict" r)) := by
    intro rs
    induction rs with
    | nil =>
      intro hh1 hh2 st
      simp only [listField, List.filterMap_nil, List.append_nil, List.foldlM]
      rfl
    | cons r rest ih =>
      intro hh1 hh2 st
      have hstep : reviewStep1 st r = Except.ok
          (st.1 ++ (match lookupD "points_forts" r with
            | some (JVal.arr l) => l | _ => []),
           st.2.1 ++ (match lookupD "points_faibles" r with
            | some (JVal.arr l) => l | _ => []),
           st.2.2.1 ++ (match lookupD "note_globale" r with
            | some v => [v] | none => []),
           st.2.2.2 ++ (match lookupD "verdict" r with
            | some v => [v] | none => [])) := by
        unfold reviewStep1
        cases hpf : lookupD "points_forts" r with
        | none =>
          cases hpfa : lookupD "points_faibles" r with
          | none =>
            cases hn : lookupD "note_globale" r <;>
              cases hv : lookupD "verdict" r <;> simp [bindOk]
          | some w =>
            obtain ⟨l, rfl⟩ := hh2 r (List.mem_cons_self _ _) w hpfa
            cases hn : lookupD "note_globale" r <;>
              cases hv : lookupD "verdict" r <;> simp [bindOk, pyExtend]
        | some w =>
          obtain ⟨l, rfl⟩ := hh1 r (List.mem_cons_self _ _) w hpf
          cases hpfa : lookupD "points_faibles" r with
          | none =>
            cases hn : lookupD "note_globale" r <;>
              cases hv : lookupD "verdict" r <;> simp [bindOk, pyExtend]
          | some w2 =>
            obtain ⟨l2, rfl⟩ := hh2 r (List.mem_cons_self _ _) w2 hpfa
            cases hn : lookupD "note_globale" r <;>
              cases hv : lookupD "verdict" r <;> simp [bindOk, pyExtend]
      show (do
          let st2 ← reviewStep1 st r
          rest.foldlM reviewStep1 st2) = _
      rw [hstep, bindOk]
      rw [ih (fun r2 hm => hh1 r2 (List.mem_cons_of_mem _ hm))
             (fun r2 hm => hh2 r2 (List.mem_cons_of_mem _ hm))]
      simp only [listField, List.filterMap_cons]
      cases hn : lookupD "note_globale" r <;>
        cases hv : lookupD "verdict" r <;>
          simp [List.append_assoc]
  exact aux results h1 h2 ([], [], [], [])

theorem strListOf_map_str (ss : List String) :
    strListOf (ss.map JVal.str) = some ss := by
  induction ss with
  | nil => rfl
  | cons s rest ih => simp [strListOf, ih]

/-- Inversion of a successful review aggregation: the produced dict in
terms of the collected fields. -/
theorem reviewAgg_ok_eval {results : List Dict} {rv : Dict}
    (h1 : ∀ r ∈ results, ∀ v, lookupD "points_forts" r = some v → ∃ l, v = JVal.arr l)
    (h2 : ∀ r ∈ results, ∀ v, lookupD "points_faibles" r = some v → ∃ l, v = JVal.arr l)
    (h : reviewAgg results = .ok rv) :
    ∃ vv,
      rv = [("points_forts", JVal.arr (dedupFold (listField "points_forts" results))),
        ("points_faibles", JVal.arr (dedupFold (listField "points_faibles" results))),
        ("note_globale",
          (results.filterMap (fun r => lookupD "note_globale" r)).headD JVal.null),
        ("verdict", vv)] ∧
      ((results.filterMap (fun r => lookupD "verdict" r)).isEmpty → vv = JVal.null) ∧
      (∀ ss, results.filterMap (fun r => lookupD "verdict" r) = ss.map JVal.str →
        ¬ (results.filterMap (fun r => lookupD "verdict" r)).isEmpty →
        vv = JVal.str (String.intercalate " " ss)) := by
  unfold reviewAgg at h
  rw [reviewCollect_eval results h1 h2, bindOk] at h
  simp only at h
  cases hd1 : pySetDedup (listField "points_forts" results) with
  | error e => rw [hd1, bindErr] at h; exact absurd h (by simp)
  | ok pfd =>
    obtain ⟨rfl, hall1⟩ := pySetDedup_ok hd1
    rw [hd1, bindOk] at h
    cases hd2 : pySetDedup (listField "points_faibles" results) with
    | error e => rw [hd2, bindErr] at h; exact absurd h (by simp)
    | ok pfad =>
      obtain ⟨rfl, hall2⟩ := pySetDedup_ok hd2
      rw [hd2, bindOk] at h
      by_cases he : (results.filterMap (fun r => lookupD "verdict" r)).isEmpty
      · rw [if_pos he] at h
        have h3 : Except.ok
            [("points_forts", JVal.arr (dedupFold (listField "points_forts" results))),
             ("points_faibles", JVal.arr (dedupFold (listField "points_faibles" results))),
             ("note_globale",
               (results.filterMap (fun r => lookupD "note_globale" r)).headD JVal.null),
             ("verdict", JVal.null)] = Except.ok rv := h
        injection h3 with h3
        refine ⟨JVal.null, h3.symm, fun _ => rfl, fun ss hss hne => absurd he hne⟩
      · rw [if_neg he] at h
        cases hj : pyJoinSpace (results.filterMap (fun r => lookupD "verdict" r)) with
        | error e => rw [hj, bindErr] at h; exact absurd h (by simp)
        | ok s =>
          rw [hj, bindOk] at h
          have h3 : Except.ok
              [("points_forts", JVal.arr (dedupFold (listField "points_forts" results))),
               ("points_faibles", JVal.arr (dedupFold (listField "points_faibles" results))),
               ("note_globale",
                 (results.filterMap (fun r => lookupD "note_globale" r)).headD JVal.null),
               ("verdict", JVal.str s)] = Except.ok rv := h
          injection h3 with h3
          refine ⟨JVal.str s, h3.symm, fun hh => absurd hh he, fun ss hss hne => ?_⟩
          unfold pyJoinSpace at hj
          rw [hss, strListOf_map_str] at hj
          simp only at hj
          have h4 : Except.ok (String.intercalate " " ss) = Except.ok s := hj
          injection h4 with h4
          rw [← h4]

/-- C3 counterexample.  For review results whose first result stores an
explicit JSON null under note_globale and whose second stores the
non-null value 9, the aggregation returns null for note_globale: the
code takes the first value present under the key, not the first
non-null value (which is 9 here). -/
theorem review_note_globale_counterexample :
    aggregate_extraction_results
      [(JVal.str "review", [[("note_globale", JVal.null)], [("note_globale", JVal.str "9")]])]
      WebsiteType.review "q"
      = Except.ok [("points_forts", JVal.arr []), ("points_faibles", JVal.arr []),
          ("note_globale", JVal.null), ("verdict", JVal.null)] ∧
    lookupD "note_globale"
      [("points_forts", JVal.arr []), ("points_faibles", JVal.arr []),
        ("note_globale", JVal.null), ("verdict", JVal.null)] = some JVal.null ∧
    JVal.null ≠ JVal.str "9" := by
  refine ⟨by decide, by decide, by decide⟩

/-- C3 amended.  When aggregation succeeds and receives review results
whose list fields are JSON arrays, points_forts and points_faibles in
the output are the de-duplicated unions of the corresponding fields
(membership equivalence plus no duplicates, order not significant);
note_globale is the first value stored under that key among the results
(null included, null when none); verdict is the space-join of all
values stored under the verdict key when they are strings (null when
none is present). -/
theorem review_aggregation_fields :
    ∀ (er : List (JVal × List Dict)) (wt : WebsiteType) (q : String)
      (results : List Dict) (d : Dict),
      lookupG (JVal.str "review") er = some results →
      aggregate_extraction_results er wt q = Except.ok d →
      (∀ r ∈ results, ∀ v, lookupD "points_forts" r = some v → ∃ l, v = JVal.arr l) →
      (∀ r ∈ results, ∀ v, lookupD "points_faibles" r = some v → ∃ l, v = JVal.arr l) →
      ∃ pf pfa vv,
        lookupD "points_forts" d = some (JVal.arr pf) ∧
        lookupD "points_faibles" d = some (JVal.arr pfa) ∧
        pf.Nodup ∧ pfa.Nodup ∧
        (∀ v, v ∈ pf ↔ ∃ r ∈ results, ∃ ll,
          lookupD "points_forts" r = some (JVal.arr ll) ∧ v ∈ ll) ∧
        (∀ v, v ∈ pfa ↔ ∃ r ∈ results, ∃ ll,
          lookupD "points_faibles" r = some (JVal.arr ll) ∧ v ∈ ll) ∧
        lookupD "note_globale" d = some
          ((results.filterMap (fun r => lookupD "note_globale" r)).headD JVal.null) ∧
        lookupD "verdict" d = some vv ∧
        ((results.filterMap (fun r => lookupD "verdict" r)).isEmpty → vv = JVal.null) ∧
        (∀ ss, results.filterMap (fun r => lookupD "verdict" r) = ss.map JVal.str →
          ¬ (results.filterMap (fun r => lookupD "verdict" r)).isEmpty →
          vv = JVal.str (String.intercalate " " ss)) := by
  intro er wt q results d hrev hok h1 h2
  obtain ⟨rv, pr, pl, hrv, hpr, hpl, rfl⟩ := aggregate_ok_parts hok
  have hra : reviewAgg results = .ok rv := by
    unfold reviewPartE at hrv
    rw [hrev] at hrv
    exact hrv
  obtain ⟨vv, rfl, hvnull, hvjoin⟩ := reviewAgg_ok_eval h1 h2 hra
  have hs : ∀ k, k ∈ ["points_forts", "points_faibles", "note_globale", "verdict"] →
      lookupD k (specsPart er) = none := by
    intro k hwere
    apply (lookupD_eq_none_iff _ _).2
    intro hmem
    have := specsPart_keys er k hmem
    subst this
    simp at hwere
  refine ⟨dedupFold (listField "points_forts" results),
    dedupFold (listField "points_faibles" results), vv, ?_, ?_, ?_, ?_, ?_, ?_, ?_, ?_,
    hvnull, hvjoin⟩
  · simp only [List.append_assoc]
    rw [lookupD_append_left_none _ (hs _ (by simp))]
    simp [lookupD]
  · simp only [List.append_assoc]
    rw [lookupD_append_left_none _ (hs _ (by simp))]
    simp [lookupD]
  · exact dedupFold_nodup _
  · exact dedupFold_nodup _
  · intro v
    rw [dedupFold_mem, listField_mem]
  · intro v
    rw [dedupFold_mem, listField_mem]
  · simp only [List.append_assoc]
    rw [lookupD_append_left_none _ (hs _ (by simp))]
    simp [lookupD]
  · simp only [List.append_assoc]
    rw [lookupD_append_left_none _ (hs _ (by simp))]
    simp [lookupD]

/-- C3 witness: the amended review-aggregation theorem applied to the
concrete scenario of the spec (two overlapping points_forts lists, one
null-free note and one verdict). -/
theorem review_aggregation_fields_witness :
    (aggregate_extraction_results
        [(JVal.str "review", [[("points_forts", JVal.arr [JVal.str "A"])],
          [("points_forts", JVal.arr [JVal.str "A", JVal.str "B"]),
           ("note_globale", JVal.str "9"), ("verdict", JVal.str "bon")]])]
        WebsiteType.review "q"
      = Except.ok [("points_forts", JVal.arr [JVal.str "A", JVal.str "B"]),
          ("points_faibles", JVal.arr []), ("note_globale", JVal.str "9"),
          ("verdict", JVal.str "bon")]) ∧
    (∃ pf pfa vv,
      lookupD "points_forts"
        [("points_forts", JVal.arr [JVal.str "A", JVal.str "B"]),
          ("points_faibles", JVal.arr []), ("note_globale", JVal.str "9"),
          ("verdict", JVal.str "bon")] = some (JVal.arr pf) ∧
      lookupD "points_faibles"
        [("points_forts", JVal.arr [JVal.str "A", JVal.str "B"]),
          ("points_faibles", JVal.arr []), ("note_globale", JVal.str "9"),
          ("verdict", JVal.str "bon")] = some (JVal.arr pfa) ∧
      pf.Nodup ∧ pfa.Nodup ∧
      (∀ v, v ∈ pf ↔ ∃ r ∈ [[("points_forts", JVal.arr [JVal.str "A"])],
          [("points_forts", JVal.arr [JVal.str "A", JVal.str "B"]),
           ("note_globale", JVal.str "9"), ("verdict", JVal.str "bon")]], ∃ ll,
        lookupD "points_forts" r = some (JVal.arr ll) ∧ v ∈ ll) ∧
      (∀ v, v ∈ pfa ↔ ∃ r ∈ [[("points_forts", JVal.arr [JVal.str "A"])],
          [("points_forts", JVal.arr [JVal.str "A", JVal.str "B"]),
           ("note_globale", JVal.str "9"), ("verdict", JVal.str "bon")]], ∃ ll,
        lookupD "points_faibles" r = some (JVal.arr ll) ∧ v ∈ ll) ∧
      lookupD "note_globale"
        [("points_forts", JVal.arr [JVal.str "A", JVal.str "B"]),
          ("points_faibles", JVal.arr []), ("note_globale", JVal.str "9"),
          ("verdict", JVal.str "bon")] = some
        (([[("points_forts", JVal.arr [JVal.str "A"])],
          [("points_forts", JVal.arr [JVal.str "A", JVal.str "B"]),
           ("note_globale", JVal.str "9"), ("verdict", JVal.str "bon")]].filterMap
            (fun r => lookupD "note_globale" r)).headD JVal.null) ∧
      lookupD "verdict"
        [("points_forts", JVal.arr [JVal.str "A", JVal.str "B"]),
          ("points_faibles", JVal.arr []), ("note_globale", JVal.str "9"),
          ("verdict", JVal.str "bon")] = some vv ∧
      (([[("points_forts", JVal.arr [JVal.str "A"])],
          [("points_forts", JVal.arr [JVal.str "A", JVal.str "B"]),
           ("note_globale", JVal.str "9"), ("verdict", JVal.str "bon")]].filterMap
            (fun r => lookupD "verdict" r)).isEmpty → vv = JVal.null) ∧
      (∀ ss, [[("points_forts", JVal.arr [JVal.str "A"])],
          [("points_forts", JVal.arr [JVal.str "A", JVal.str "B"]),
           ("note_globale", JVal.str "9"), ("verdict", JVal.str "bon")]].filterMap
            (fun r => lookupD "verdict" r) = ss.map JVal.str →
        ¬ ([[("points_forts", JVal.arr [JVal.str "A"])],
          [("points_forts", JVal.arr [JVal.str "A", JVal.str "B"]),
           ("note_globale", JVal.str "9"), ("verdict", JVal.str "bon")]].filterMap
            (fun r => lookupD "verdict" r)).isEmpty →
        vv = JVal.str (String.intercalate " " ss))) := by
  constructor
  · decide
  · exact review_aggregation_fields
      [(JVal.str "review", [[("points_forts", JVal.arr [JVal.str "A"])],
        [("points_forts", JVal.arr [JVal.str "A", JVal.str "B"]),
         ("note_globale", JVal.str "9"), ("verdict", JVal.str "bon")]])]
      WebsiteType.review "q"
      [[("points_forts", JVal.arr [JVal.str "A"])],
        [("points_forts", JVal.arr [JVal.str "A", JVal.str "B"]),
         ("note_globale", JVal.str "9"), ("verdict", JVal.str "bon")]]
      [("points_forts", JVal.arr [JVal.str "A", JVal.str "B"]),
        ("points_faibles", JVal.arr []), ("note_globale", JVal.str "9"),
        ("verdict", JVal.str "bon")]
      (by decide) (by decide)
      (by
        intro r hr v hv
        simp only [List.mem_cons, List.not_mem_nil, or_false] at hr
        rcases hr with rfl | rfl
        · simp [lookupD] at hv
          exact ⟨_, hv.symm⟩
        · simp [lookupD] at hv
          exact ⟨_, hv.symm⟩)
      (by
        intro r hr v hv
        simp only [List.mem_cons, List.not_mem_nil, or_false] at hr
        rcases hr with rfl | rfl
        · simp [lookupD] at hv
        · simp [lookupD] at hv)

/-- Lookup characterization of the shallow general merge: the value at
a key is the value of the last inserted pair with that key across the
result dicts (later results win on collision). -/
theorem generalAgg_lookup (results : List Dict) (k : String) :
    lookupD k (generalAgg results) =
      match (results.join.reverse.find? (fun kv => kv.1 = k)) with
      | some kv => some kv.2
      | none => none := by
  have aux : ∀ (rs : List Dict) (d : Dict),
      lookupD k (rs.foldl pyUpdate d) =
        match (rs.join.reverse.find? (fun kv => kv.1 = k)) with
        | some kv => some kv.2
        | none => lookupD k d := by
    intro rs
    induction rs with
    | nil => intro d; simp
    | cons r rest ih =>
      intro d
      show lookupD k (rest.foldl pyUpdate (pyUpdate d r)) = _
      rw [ih]
      simp only [List.join_cons, List.reverse_append, List.find?_append]
      cases hf : rest.join.reverse.find? (fun kv => kv.1 = k) with
      | some kv => simp [hf]
      | none =>
        simp only [hf, Option.none_or]
        rw [lookupD_pyUpdate]
  show lookupD k (results.foldl pyUpdate []) = _
  rw [aux results []]
  cases results.join.reverse.find? (fun kv => kv.1 = k) <;> simp [lookupD]

/-- C7 counterexample.  A non-empty extraction result grouped under the
unknown default type contributes nothing to the aggregated output (the
aggregation has no branch for it), although the same result grouped
under general is merged under informations_generales. -/
theorem unknown_results_dropped_counterexample :
    aggregate_extraction_results [(JVal.str "unknown", [[("foo", JVal.str "bar")]])]
      WebsiteType.review "q" = Except.ok [] ∧
    aggregate_extraction_results [(JVal.str "general", [[("foo", JVal.str "bar")]])]
      WebsiteType.review "q"
      = Except.ok [("informations_generales", JVal.obj [("foo", JVal.str "bar")])] := by
  exact ⟨by decide, by decide⟩

/-- C7 amended.  Results grouped under general are merged by shallow
dict update into informations_generales (later result wins on key
collision, and every key of every result appears); results grouped
under the unknown default type are dropped entirely. -/
theorem general_results_shallow_merge :
    ∀ (results : List Dict) (wt : WebsiteType) (q : String),
      (aggregate_extraction_results [(JVal.str "general", results)] wt q
        = Except.ok (if (generalAgg results).isEmpty then []
            else [("informations_generales", JVal.obj (generalAgg results))])) ∧
      (∀ k, lookupD k (generalAgg results) =
        match (results.join.reverse.find? (fun kv => kv.1 = k)) with
        | some kv => some kv.2
        | none => none) ∧
      (∀ r ∈ results, ∀ kv ∈ r, (lookupD kv.1 (generalAgg results)).isSome = true) ∧
      (∀ uresults : List Dict,
        aggregate_extraction_results [(JVal.str "unknown", uresults)] wt q = Except.ok []) := by
  intro results wt q
  refine ⟨?_, generalAgg_lookup results, ?_, ?_⟩
  · rw [aggregate_eval]
    simp [reviewPartE, pricingPartE, productPartE, specsPart, generalPart, lookupG,
      generalAgg]
    rfl
  · intro r hr kv hkv
    rw [generalAgg_lookup]
    cases hf : results.join.reverse.find? (fun kv2 => kv2.1 = kv.1) with
    | some kv2 => simp
    | none =>
      exfalso
      have hmem : kv ∈ results.join.reverse := by
        rw [List.mem_reverse]
        exact List.mem_join.2 ⟨r, hr, hkv⟩
      have := List.find?_eq_none.1 hf kv hmem
      simp at this
  · intro uresults
    rw [aggregate_eval]
    simp [reviewPartE, pricingPartE, productPartE, specsPart, generalPart, lookupG]
    rfl

/-- Key list of every aggregated output. -/
def aggregatedKeys : List String :=
  ["caracteristiques_techniques", "points_forts", "points_faibles", "note_globale",
   "verdict", "prix_et_disponibilite", "produits", "informations_generales"]

/-- Content types with a merge branch in the aggregation. -/
def handledTypes : List JVal :=
  [.str "specs", .str "review", .str "pricing", .str "product_list", .str "general"]

theorem pricingPartE_keys {er : List (JVal × List Dict)} {pr : Dict}
    (h : pricingPartE er = .ok pr) :
    ∀ k ∈ keysOf pr, k = "prix_et_disponibilite" := by
  unfold pricingPartE at h
  cases hp2 : lookupG (JVal.str "pricing") er with
  | none =>
    rw [hp2] at h
    have h2 : Except.ok ([] : Dict) = Except.ok pr := h
    injection h2 with h2
    subst h2
    simp [keysOf]
  | some rs =>
    rw [hp2] at h
    have h3 : (do
        let pv ← pricingAgg rs
        pure [("prix_et_disponibilite", JVal.obj pv)] : Except String Dict)
        = Except.ok pr := h
    cases hp3 : pricingAgg rs with
    | error e => rw [hp3, bindErr] at h3; exact absurd h3 (by simp)
    | ok pv =>
      rw [hp3, bindOk] at h3
      have h2 : Except.ok [("prix_et_disponibilite", JVal.obj pv)] = Except.ok pr := h3
      injection h2 with h2
      subst h2
      simp [keysOf]

theorem productPartE_keys {er : List (JVal × List Dict)} {pl : Dict}
    (h : productPartE er = .ok pl) :
    ∀ k ∈ keysOf pl, k = "produits" := by
  unfold productPartE at h
  cases hp2 : lookupG (JVal.str "product_list") er with
  | none =>
    rw [hp2] at h
    have h2 : Except.ok ([] : Dict) = Except.ok pl := h
    injection h2 with h2
    subst h2
    simp [keysOf]
  | some rs =>
    rw [hp2] at h
    have h3 : (do
        let pls ← productAgg rs
        pure [("produits", JVal.arr pls)] : Except String Dict)
        = Except.ok pl := h
    cases hp3 : productAgg rs with
    | error e => rw [hp3, bindErr] at h3; exact absurd h3 (by simp)
    | ok pls =>
      rw [hp3, bindOk] at h3
      have h2 : Except.ok [("produits", JVal.arr pls)] = Except.ok pl := h3
      injection h2 with h2
      subst h2
      simp [keysOf]

theorem generalPart_keys (er : List (JVal × List Dict)) :
    ∀ k ∈ keysOf (generalPart er), k = "informations_generales" := by
  unfold generalPart
  cases lookupG (JVal.str "general") er with
  | none => simp [keysOf]
  | some rs =>
    by_cases he : (generalAgg rs).isEmpty <;> simp [he, keysOf]

/-- C10.  Every key of a successful aggregation output is one of the
eight fixed category keys, and a group stored under a content type
without a merge branch changes nothing in the output. -/
theorem aggregate_output_keys :
    (∀ (er : List (JVal × List Dict)) (wt : WebsiteType) (q : String) (d : Dict),
      aggregate_extraction_results er wt q = Except.ok d →
      ∀ k ∈ keysOf d, k ∈ aggregatedKeys) ∧
    (∀ (t : JVal) (rs : List Dict) (er : List (JVal × List Dict))
      (wt : WebsiteType) (q : String),
      t ∉ handledTypes →
      aggregate_extraction_results ((t, rs) :: er) wt q
        = aggregate_extraction_results er wt q) := by
  constructor
  · intro er wt q d hok k hk
    obtain ⟨rv, pr, pl, hrv, hpr, hpl, rfl⟩ := aggregate_ok_parts hok
    simp only [keysOf, List.map_append, List.mem_append] at hk
    rcases hk with (((hm | hm) | hm) | hm) | hm
    · have := specsPart_keys er _ hm
      subst this
      simp [aggregatedKeys]
    · have := reviewPartE_keys hrv _ hm
      simp only [List.mem_cons, List.not_mem_nil, or_false] at this
      rcases this with rfl | rfl | rfl | rfl <;> simp [aggregatedKeys]
    · have := pricingPartE_keys hpr _ hm
      subst this
      simp [aggregatedKeys]
    · have := productPartE_keys hpl _ hm
      subst this
      simp [aggregatedKeys]
    · have := generalPart_keys er _ hm
      subst this
      simp [aggregatedKeys]
  · intro t rs er wt q hne
    have h1 : pyKeyEq t (JVal.str "specs") = false :=
      pyKeyEq_str_right_false (fun hh => hne (by rw [hh]; simp [handledTypes]))
    have h2 : pyKeyEq t (JVal.str "review") = false :=
      pyKeyEq_str_right_false (fun hh => hne (by rw [hh]; simp [handledTypes]))
    have h3 : pyKeyEq t (JVal.str "pricing") = false :=
      pyKeyEq_str_right_false (fun hh => hne (by rw [hh]; simp [handledTypes]))
    have h4 : pyKeyEq t (JVal.str "product_list") = false :=
      pyKeyEq_str_right_false (fun hh => hne (by rw [hh]; simp [handledTypes]))
    have h5 : pyKeyEq t (JVal.str "general") = false :=
      pyKeyEq_str_right_false (fun hh => hne (by rw [hh]; simp [handledTypes]))
    rw [aggregate_eval, aggregate_eval]
    have hsp : specsPart ((t, rs) :: er) = specsPart er := by
      unfold specsPart
      simp [lookupG, h1]
    have hrv : reviewPartE ((t, rs) :: er) = reviewPartE er := by
      unfold reviewPartE
      simp [lookupG, h2]
    have hpr : pricingPartE ((t, rs) :: er) = pricingPartE er := by
      unfold pricingPartE
      simp [lookupG, h3]
    have hpl : productPartE ((t, rs) :: er) = productPartE er := by
      unfold productPartE
      simp [lookupG, h4]
    have hgp : generalPart ((t, rs) :: er) = generalPart er := by
      unfold generalPart
      simp [lookupG, h5]
    rw [hsp, hrv, hpr, hpl, hgp]

/-- C7 witness: the amended general-merge theorem applied to a concrete
result whose key must appear in the merged general info. -/
theorem general_results_shallow_merge_witness :
    (lookupD "foo" (generalAgg [[("foo", JVal.str "bar")],
      [("foo", JVal.str "baz")]])).isSome = true :=
  (general_results_shallow_merge [[("foo", JVal.str "bar")], [("foo", JVal.str "baz")]]
      WebsiteType.review "q").2.2.1
    [("foo", JVal.str "bar")] (by decide) ("foo", JVal.str "bar") (by decide)

/-- C10 witness: the key-closure theorem applied to a concrete general
group, and the no-contribution part applied to an unknown group. -/
theorem aggregate_output_keys_witness :
    (∀ k ∈ keysOf [("informations_generales", JVal.obj [("foo", JVal.str "bar")])],
      k ∈ aggregatedKeys) ∧
    aggregate_extraction_results [(JVal.str "unknown", [[("foo", JVal.str "bar")]])]
        WebsiteType.review "q"
      = aggregate_extraction_results [] WebsiteType.review "q" :=
  ⟨aggregate_output_keys.1 [(JVal.str "general", [[("foo", JVal.str "bar")]])]
      WebsiteType.review "q"
      [("informations_generales", JVal.obj [("foo", JVal.str "bar")])] (by decide),
   aggregate_output_keys.2 (JVal.str "unknown") [[("foo", JVal.str "bar")]] []
      WebsiteType.review "q"
      (by decide)⟩

/-! Pass-2 ordering, capping and grouping (C4). -/

theorem lookupG_appendGroup {β : Type} (acc : List (JVal × List β)) (t t2 : JVal)
    (x : β) :
    lookupG t2 (appendGroup acc t x) =
      if pyKeyEq t t2 then some ((lookupG t2 acc).getD [] ++ [x]) else lookupG t2 acc := by
  induction acc with
  | nil =>
    by_cases h : pyKeyEq t t2 = true <;> simp [appendGroup, lookupG, h]
  | cons kl rest ih =>
    obtain ⟨k, l⟩ := kl
    by_cases hkt : pyKeyEq k t = true
    · simp only [appendGroup, hkt, if_true]
      by_cases hkt2 : pyKeyEq k t2 = true
      · have htk : pyKeyEq t k = true := (pyKeyEq_symm t k).trans hkt
        have htt2 : pyKeyEq t t2 = true := pyKeyEq_trans htk hkt2
        simp [lookupG, hkt2, htt2]
      · have htt2 : pyKeyEq t t2 = false := by
          cases hb : pyKeyEq t t2 with
          | false => rfl
          | true => exact absurd (pyKeyEq_trans hkt hb) hkt2
        simp [lookupG, hkt2, htt2]
    · simp only [appendGroup, hkt, Bool.false_eq_true, if_false]
      by_cases hkt2 : pyKeyEq k t2 = true
      · have htt2 : pyKeyEq t t2 = false := by
          cases hb : pyKeyEq t t2 with
          | false => rfl
          | true =>
            have hb2 : pyKeyEq t2 t = true := (pyKeyEq_symm t2 t).trans hb
            exact absurd (pyKeyEq_trans hkt2 hb2) hkt
        simp [lookupG, hkt2, htt2]
      · have hl1 : lookupG t2 ((k, l) :: appendGroup rest t x)
            = lookupG t2 (appendGroup rest t x) := by
          simp [lookupG, hkt2]
        have hl2 : lookupG t2 ((k, l) :: rest) = lookupG t2 rest := by
          simp [lookupG, hkt2]
        rw [hl1, ih, hl2]

/-- Evaluation of the pass-2 grouping fold: the group found under `t`
is the in-order image of the analyses whose content type equals `t`
under Python `==`. -/
theorem lookupG_groupFold (chunks : List String) (t : JVal) :
    ∀ (L : List ChunkAnalysis) (acc : List (JVal × List (String × ChunkAnalysis))),
      lookupG t (L.foldl (fun acc a =>
        appendGroup acc a.content_type ((chunks.get? a.chunk_index).getD "", a)) acc)
      = match lookupG t acc with
        | some g => some (g ++ (L.filter (fun a => pyKeyEq a.content_type t)).map
            (fun a => ((chunks.get? a.chunk_index).getD "", a)))
        | none =>
          if (L.filter (fun a => pyKeyEq a.content_type t)).isEmpty then none
          else some ((L.filter (fun a => pyKeyEq a.content_type t)).map
            (fun a => ((chunks.get? a.chunk_index).getD "", a))) := by
  intro L
  induction L with
  | nil =>
    intro acc
    cases hla : lookupG t acc <;> simp [hla]
  | cons a rest ih =>
    intro acc
    show lookupG t (rest.foldl _ (appendGroup acc a.content_type _)) = _
    rw [ih]
    rw [lookupG_appendGroup]
    by_cases hat : pyKeyEq a.content_type t = true
    · rw [if_pos hat]
      cases hla : lookupG t acc with
      | some g => simp [hla, List.filter_cons, hat]
      | none => simp [hla, List.filter_cons, hat]
    · rw [if_neg (by simp [hat])]
      cases hla : lookupG t acc with
      | some g => simp [hla, List.filter_cons, hat]
      | none => simp [hla, List.filter_cons, hat]

/-- The grouping step never raises when every analysis indexes an
existing chunk and carries a hashable content type, and then equals the
pure grouping fold. -/
theorem build_chunks_by_type_ok (chunks : List String) :
    ∀ (L : List ChunkAnalysis) (acc : List (JVal × List (String × ChunkAnalysis))),
      (∀ a ∈ L, a.chunk_index < chunks.length ∧ hashableJ a.content_type = true) →
      L.foldlM (fun acc a =>
        if hashableJ a.content_type then
          match chunks.get? a.chunk_index with
          | some c => Except.ok (appendGroup acc a.content_type (c, a))
          | none => Except.error "IndexError"
        else Except.error "TypeError: unhashable type")
        acc
      = Except.ok (L.foldl (fun acc a =>
          appendGroup acc a.content_type ((chunks.get? a.chunk_index).getD "", a)) acc) := by
  intro L
  induction L with
  | nil => intro acc h; rfl
  | cons a rest ih =>
    intro acc h
    have hlt : a.chunk_index < chunks.length := (h a (List.mem_cons_self _ _)).1
    have hha : hashableJ a.content_type = true := (h a (List.mem_cons_self _ _)).2
    cases hc : chunks.get? a.chunk_index with
    | none =>
      exfalso
      rw [List.get?_eq_none] at hc
      omega
    | some c =>
      show ((if hashableJ a.content_type then
          match chunks.get? a.chunk_index with
          | some c => Except.ok (appendGroup acc a.content_type (c, a))
          | none => Except.error "IndexError"
        else Except.error "TypeError: unhashable type") >>= _) = _
      rw [if_pos hha, hc]
      show (Except.ok (appendGroup acc a.content_type (c, a)) >>= _) = _
      rw [bindOk]
      rw [ih _ (fun a2 hm => h a2 (List.mem_cons_of_mem _ hm))]
      rw [List.foldl_cons]
      simp [← List.get?_eq_getElem?, hc]

theorem prioritize_mem_subset {analyses : List ChunkAnalysis} {m : Option Int}
    {a : ChunkAnalysis} (h : a ∈ prioritizeAnalyses analyses m) : a ∈ analyses := by
  have hsort : ∀ b, b ∈ sortAnalyses analyses → b ∈ analyses := by
    intro b hb
    exact (List.perm_insertionSort analysisLE analyses).subset hb
  cases m with
  | none =>
    simp only [prioritizeAnalyses] at h
    exact hsort a h
  | some mm =>
    simp only [prioritizeAnalyses] at h
    by_cases hz : mm ≠ 0
    · rw [if_pos hz] at h
      unfold pySliceTo at h
      split at h <;> exact hsort a (List.take_subset _ _ h)
    · rw [if_neg hz] at h
      exact hsort a h

/-- C4 counterexample.  With `max_chunks = 0` supplied, the Python guard
`if max_chunks:` is falsy, so no cap is applied: one entry survives even
though the claim calls for exactly the first 0 entries. -/
theorem prioritize_cap_zero_counterexample :
    prioritizeAnalyses
        [⟨0, .str "general", mkRat 1 2, .bool false, .bool false, .bool false, .arr [], 3⟩]
        (some 0)
      = [⟨0, .str "general", mkRat 1 2, .bool false, .bool false, .bool false, .arr [], 3⟩] ∧
    (sortAnalyses
        [⟨0, .str "general", mkRat 1 2, .bool false, .bool false, .bool false, .arr [], 3⟩]).take
        ((0 : Int).toNat) = [] := by
  exact ⟨by decide, by decide⟩

/-- C4 amended.  For a positive supplied cap, pass 2 processes exactly
the first `max_chunks` entries of the stable sort by (priority
ascending, relevance descending), and groups them by content type in
order (Python dict keys: the grouping raises on an unhashable content
type, so the analyses are assumed hashable, as every analysis the
pipeline itself produces is); a cap of 0 is falsy in Python and applies
no cap. -/
theorem prioritized_order_and_grouping :
    ∀ (analyses : List ChunkAnalysis) (m : Int) (chunks : List String),
      0 < m →
      (∀ a ∈ analyses, a.chunk_index < chunks.length) →
      (∀ a ∈ analyses, hashableJ a.content_type = true) →
      (sortAnalyses analyses).Perm analyses ∧
      (sortAnalyses analyses).Sorted analysisLE ∧
      prioritizeAnalyses analyses (some m) = (sortAnalyses analyses).take m.toNat ∧
      (prioritizeAnalyses analyses (some m)).Sorted analysisLE ∧
      ∃ G, build_chunks_by_type chunks (prioritizeAnalyses analyses (some m)) = .ok G ∧
        ∀ t, lookupG t G =
          (if ((prioritizeAnalyses analyses (some m)).filter
              (fun a => pyKeyEq a.content_type t)).isEmpty then none
           else some (((prioritizeAnalyses analyses (some m)).filter
              (fun a => pyKeyEq a.content_type t)).map
                (fun a => ((chunks.get? a.chunk_index).getD "", a)))) := by
  intro analyses m chunks hm hvalid hhash
  have hperm : (sortAnalyses analyses).Perm analyses :=
    List.perm_insertionSort analysisLE analyses
  have hsorted : (sortAnalyses analyses).Sorted analysisLE :=
    List.sorted_insertionSort analysisLE analyses
  have hcap : prioritizeAnalyses analyses (some m) = (sortAnalyses analyses).take m.toNat := by
    simp only [prioritizeAnalyses, pySliceTo]
    rw [if_pos (by omega : m ≠ 0), if_pos (by omega : (0:Int) ≤ m)]
  refine ⟨hperm, hsorted, hcap, ?_, ?_⟩
  · rw [hcap]
    exact List.Pairwise.sublist (List.take_sublist _ _) hsorted
  · have hv2 : ∀ a ∈ prioritizeAnalyses analyses (some m),
        a.chunk_index < chunks.length ∧ hashableJ a.content_type = true :=
      fun a ha => ⟨hvalid a (prioritize_mem_subset ha),
        hhash a (prioritize_mem_subset ha)⟩
    refine ⟨_, build_chunks_by_type_ok chunks _ [] hv2, ?_⟩
    intro t
    rw [lookupG_groupFold]
    simp [lookupG]

/-- Concrete analyses of the C4 witness. -/
def cw4L : List ChunkAnalysis :=
  [⟨0, .str "pricing", mkRat 1 2, .bool false, .bool true, .bool false, .arr [], 2⟩,
   ⟨1, .str "specs", mkRat 9 10, .bool true, .bool false, .bool false, .arr [], 1⟩,
   ⟨2, .str "specs", mkRat 1 10, .bool true, .bool false, .bool false, .arr [], 1⟩]

/-- C4 witness: three analyses, a cap of 2, and the grouping of the two
surviving entries. -/
theorem prioritized_order_and_grouping_witness :
    ((0 : Int) < 2 ∧
     (∀ a ∈ cw4L, a.chunk_index < (["c0", "c1", "c2"] : List String).length) ∧
     (∀ a ∈ cw4L, hashableJ a.content_type = true)) ∧
    ((sortAnalyses cw4L).Perm cw4L ∧
     (sortAnalyses cw4L).Sorted analysisLE ∧
     prioritizeAnalyses cw4L (some 2) = (sortAnalyses cw4L).take ((2 : Int).toNat) ∧
     (prioritizeAnalyses cw4L (some 2)).Sorted analysisLE ∧
     ∃ G, build_chunks_by_type ["c0", "c1", "c2"] (prioritizeAnalyses cw4L (some 2))
         = .ok G ∧
       ∀ t, lookupG t G =
         (if ((prioritizeAnalyses cw4L (some 2)).filter
             (fun a => pyKeyEq a.content_type t)).isEmpty then none
          else some (((prioritizeAnalyses cw4L (some 2)).filter
             (fun a => pyKeyEq a.content_type t)).map
               (fun a => (((["c0", "c1", "c2"] : List String).get? a.chunk_index).getD "",
                 a))))) :=
  ⟨⟨by decide, by decide, by decide⟩,
   prioritized_order_and_grouping cw4L 2 ["c0", "c1", "c2"]
     (by decide) (by decide) (by decide)⟩


/-! Pipeline-level error behaviour (C1). -/

/-- A provider whose analysis response stores a list under content_type
also makes the pipeline raise: pass 1 keeps the raw value
(`result.get("content_type", "general")` is unchecked) and the pass-2
membership test `if content_type not in chunks_by_type:` hashes it,
a TypeError on the unhashable list. -/
theorem enhanced_extract_unhashable_content_type_raises :
    enhanced_extract_data_from_chunks ["x"] "q"
      (fun _ _ _ => Except.ok (.obj [("content_type", JVal.arr [])])) ""
      = Except.error "TypeError: unhashable type" := by
  decide

/-- Per-key effect of `specsStep`: merging an incoming value (right)
over an accumulator value (left): a fresh key is inserted, two objects
deep-merge with the incoming keys winning, and any other conflict keeps
the accumulator value. -/
def mval (od orv : Option JVal) : Option JVal :=
  match orv with
  | none => od
  | some v =>
    match od with
    | none => some v
    | some v0 =>
      match v, v0 with
      | .obj src, .obj dst => some (.obj (pyUpdate dst src))
      | _, _ => some v0

theorem mval_none_right (od : Option JVal) : mval od none = od := rfl

theorem mval_none_left (orv : Option JVal) : mval none orv = orv := by
  cases orv <;> rfl

theorem lookupD_specsStep (d : Dict) (k1 : String) (v : JVal) (k : String) :
    lookupD k (specsStep d (k1, v)) =
      if k1 = k then mval (lookupD k d) (some v) else lookupD k d := by
  simp only [specsStep]
  split
  next hd =>
    rw [lookupD_setKey]
    by_cases hk : k1 = k
    · subst hk
      rw [if_pos rfl, if_pos rfl, hd, mval_none_left]
    · rw [if_neg hk, if_neg hk]
  next v0 hd =>
    by_cases hk : k1 = k
    · subst hk
      rw [if_pos rfl, hd]
      cases v <;> cases v0 <;> simp [mval, lookupD_setKey, hd]
    · rw [if_neg hk]
      cases v <;> cases v0 <;> simp [lookupD_setKey, hk]

theorem lookupD_specsMerge1 (r : Dict) :
    ∀ (d : Dict) (k : String), (keysOf r).Nodup →
      lookupD k (specsMerge1 d r) = mval (lookupD k d) (lookupD k r) := by
  induction r with
  | nil => intro d k _; rfl
  | cons kv rest ih =>
    intro d k hr
    have hr2 : (kv.1 :: keysOf rest).Nodup := hr
    have hr3 : (keysOf rest).Nodup := (List.nodup_cons.mp hr2).2
    have hknot : kv.1 ∉ keysOf rest := (List.nodup_cons.mp hr2).1
    have hstep : lookupD k (specsMerge1 d (kv :: rest)) =
        lookupD k (specsMerge1 (specsStep d kv) rest) := rfl
    rw [hstep, ih (specsStep d kv) k hr3]
    obtain ⟨k1, v⟩ := kv
    rw [lookupD_specsStep]
    have hlr : lookupD k (((k1, v) :: rest) : Dict) =
        if k1 = k then some v else lookupD k rest := rfl
    rw [hlr]
    by_cases hk : k1 = k
    · subst hk
      rw [if_pos rfl, if_pos rfl]
      have hnone : lookupD k1 rest = none := (lookupD_eq_none_iff _ _).mpr hknot
      rw [hnone]
      rfl
    · rw [if_neg hk, if_neg hk]

theorem lookupD_specsAgg3 (X Y Z : Dict) (hX : (keysOf X).Nodup) (hY : (keysOf Y).Nodup)
    (hZ : (keysOf Z).Nodup) (k : String) :
    lookupD k (specsAgg [X, Y, Z]) =
      mval (mval (lookupD k X) (lookupD k Y)) (lookupD k Z) := by
  have h0 : specsAgg [X, Y, Z] = specsMerge1 (specsMerge1 (specsMerge1 [] X) Y) Z := rfl
  rw [h0, lookupD_specsMerge1 Z _ k hZ, lookupD_specsMerge1 Y _ k hY,
    lookupD_specsMerge1 X _ k hX]
  have hnil : lookupD k ([] : Dict) = none := rfl
  rw [hnil, mval_none_left]

/-- Mapping-level equivalence of optional values: two object values are
equivalent when they agree as key-value mappings; anything else must be
equal. -/
def OEquiv (o1 o2 : Option JVal) : Prop :=
  match o1, o2 with
  | some (JVal.obj d1), some (JVal.obj d2) => ∀ k2, lookupD k2 d1 = lookupD k2 d2
  | a, b => a = b

theorem OEquiv_refl (o : Option JVal) : OEquiv o o := by
  cases o with
  | none => exact rfl
  | some v => cases v <;> first | exact fun k2 => rfl | exact rfl

theorem OEquiv_symm : ∀ {o1 o2 : Option JVal}, OEquiv o1 o2 → OEquiv o2 o1 := by
  intro o1 o2 h
  cases o1 with
  | none =>
    have h1 : (none : Option JVal) = o2 := h
    rw [← h1]
    exact rfl
  | some v1 =>
    cases o2 with
    | none => cases v1 <;> exact Option.noConfusion h
    | some v2 =>
      cases v1 <;> cases v2 <;> first
        | exact fun k2 => (h k2).symm
        | exact h.symm

theorem OEquiv_trans : ∀ {o1 o2 o3 : Option JVal},
    OEquiv o1 o2 → OEquiv o2 o3 → OEquiv o1 o3 := by
  intro o1 o2 o3 h1 h2
  cases o1 with
  | none =>
    have h1a : (none : Option JVal) = o2 := h1
    rw [← h1a] at h2
    exact h2
  | some v1 =>
    cases o2 with
    | none => cases v1 <;> exact Option.noConfusion h1
    | some v2 =>
      cases o3 with
      | none => cases v2 <;> exact Option.noConfusion h2
      | some v3 =>
        cases v1 <;> cases v2 <;> cases v3
        all_goals try exact fun k2 => (h1 k2).trans (h2 k2)
        all_goals try exact Eq.trans h1 h2
        all_goals try exact Option.noConfusion h1 (fun he => JVal.noConfusion he)
        all_goals exact Option.noConfusion h2 (fun he => JVal.noConfusion he)

/-- The nested dicts of a pair of optional values are key-disjoint, and
any two present values are both objects (the no-conflict hypothesis of
the claim at one key). -/
def PDisj (a b : Option JVal) : Prop :=
  ∀ va vb, a = some va → b = some vb →
    ∃ da db, va = JVal.obj da ∧ vb = JVal.obj db ∧
      ∀ k2, k2 ∈ keysOf da → k2 ∉ keysOf db

/-- An optional object value has duplicate-free keys. -/
def NodupO (o : Option JVal) : Prop :=
  ∀ d, o = some (JVal.obj d) → (keysOf d).Nodup

theorem PDisj_symm {a b : Option JVal} (h : PDisj a b) : PDisj b a := by
  intro vb va hb ha
  obtain ⟨da, db, h1, h2, h3⟩ := h va vb ha hb
  exact ⟨db, da, h2, h1, fun k2 hk2 hk1 => h3 k2 hk1 hk2⟩

/-- Key-disjointness of two dicts, as a Boolean. -/
def disjointKeysB (d1 d2 : Dict) : Bool :=
  (keysOf d1).all (fun k2 => !(decide (k2 ∈ keysOf d2)))

/-- No key-level conflict between one pair of looked-up values: two
present values are only allowed as objects with disjoint nested keys. -/
def noConfO : Option JVal → Option JVal → Bool
  | some (.obj d1), some (.obj d2) => disjointKeysB d1 d2
  | some _, some _ => false
  | _, _ => true

/-- No key-level conflict between two result dicts: every shared
top-level key carries object values with disjoint nested keys. -/
def noConflictB (X Y : Dict) : Bool :=
  (keysOf X).all (fun k2 => noConfO (lookupD k2 X) (lookupD k2 Y))

/-- A dict has duplicate-free top-level keys and duplicate-free keys in
every nested object value. -/
def nestedNodupB (kv : String × JVal) : Bool :=
  match kv.2 with
  | .obj d2 => decide (keysOf d2).Nodup
  | _ => true

def keysNodupDeepB (d : Dict) : Bool :=
  decide (keysOf d).Nodup && d.all nestedNodupB

theorem keysNodupDeepB_top {d : Dict} (h : keysNodupDeepB d = true) :
    (keysOf d).Nodup :=
  of_decide_eq_true (Bool.and_eq_true_iff.mp h).1

theorem keysNodupDeepB_nested {d : Dict} (h : keysNodupDeepB d = true) {k : String}
    {d2 : Dict} (hl : lookupD k d = some (JVal.obj d2)) : (keysOf d2).Nodup := by
  have hm : (k, JVal.obj d2) ∈ d := lookupD_some_mem hl
  have h2 := List.all_eq_true.mp (Bool.and_eq_true_iff.mp h).2 _ hm
  exact of_decide_eq_true h2

theorem noConf_lookup (X Y : Dict) (h : noConflictB X Y = true) (k : String) :
    noConfO (lookupD k X) (lookupD k Y) = true := by
  cases hx : lookupD k X with
  | none => cases lookupD k Y <;> rfl
  | some vx =>
    have hk : k ∈ keysOf X := List.mem_map_of_mem Prod.fst (lookupD_some_mem hx)
    have h2 := List.all_eq_true.mp h k hk
    rw [hx] at h2
    exact h2

theorem noConflictB_PDisj {X Y : Dict} (h : noConflictB X Y = true) (k : String) :
    PDisj (lookupD k X) (lookupD k Y) := by
  intro va vb ha hb
  have hc := noConf_lookup X Y h k
  rw [ha, hb] at hc
  cases va <;> cases vb <;> try exact Bool.noConfusion hc
  rename_i da db
  refine ⟨da, db, rfl, rfl, ?_⟩
  intro k2 h1
  have h3 : disjointKeysB da db = true := hc
  have h4 := List.all_eq_true.mp h3 k2 h1
  simpa using h4

theorem lookupD_pyUpdate_comm {d1 d2 : Dict} (h1 : (keysOf d1).Nodup)
    (h2 : (keysOf d2).Nodup) (hd : ∀ k2, k2 ∈ keysOf d1 → k2 ∉ keysOf d2) (k2 : String) :
    lookupD k2 (pyUpdate d1 d2) = lookupD k2 (pyUpdate d2 d1) := by
  have e1 : pyUpdate d1 d2 = d1 ++ d2 := pyUpdate_eq_append h2 (fun kv hm => by
    rw [lookupD_eq_none_iff]
    intro hk
    exact hd kv.1 hk (List.mem_map_of_mem Prod.fst hm))
  have e2 : pyUpdate d2 d1 = d2 ++ d1 := pyUpdate_eq_append h1 (fun kv hm => by
    rw [lookupD_eq_none_iff]
    intro hk
    exact hd kv.1 (List.mem_map_of_mem Prod.fst hm) hk)
  rw [e1, e2, lookupD_append, lookupD_append]
  cases hx : lookupD k2 d1 with
  | some v =>
    have hy : lookupD k2 d2 = none := (lookupD_eq_none_iff _ _).2
      (hd k2 (List.mem_map_of_mem Prod.fst (lookupD_some_mem hx)))
    simp [hx, hy]
  | none =>
    cases hy : lookupD k2 d2 with
    | some w => simp [hx, hy]
    | none => simp [hx, hy]

theorem lookupD_pyUpdate_congr {X Y : Dict} (h : ∀ k2, lookupD k2 X = lookupD k2 Y)
    (s : Dict) (k2 : String) : lookupD k2 (pyUpdate X s) = lookupD k2 (pyUpdate Y s) := by
  cases hf : s.reverse.find? (fun kv => kv.1 = k2) with
  | some kv => simp only [lookupD_pyUpdate, hf]
  | none =>
    simp only [lookupD_pyUpdate, hf]
    exact h k2

theorem revFind_some_mem_keys {s : Dict} {k2 : String} {kv : String × JVal}
    (h : s.reverse.find? (fun kv => kv.1 = k2) = some kv) : k2 ∈ keysOf s := by
  have h1 := List.find?_some h
  have h2 : kv ∈ s := List.mem_reverse.1 (List.mem_of_find?_eq_some h)
  have h3 : kv.1 = k2 := of_decide_eq_true h1
  exact h3 ▸ List.mem_map_of_mem Prod.fst h2

theorem lookupD_pyUpdate2_swap {da db dc : Dict}
    (hd : ∀ k2, k2 ∈ keysOf db → k2 ∉ keysOf dc) (k2 : String) :
    lookupD k2 (pyUpdate (pyUpdate da db) dc) =
      lookupD k2 (pyUpdate (pyUpdate da dc) db) := by
  cases hc : dc.reverse.find? (fun kv => kv.1 = k2) with
  | some kvc =>
    cases hb : db.reverse.find? (fun kv => kv.1 = k2) with
    | some kvb =>
      exact absurd (revFind_some_mem_keys hb)
        (fun hmem => hd k2 hmem (revFind_some_mem_keys hc))
    | none => simp only [lookupD_pyUpdate, hc, hb]
  | none =>
    cases hb : db.reverse.find? (fun kv => kv.1 = k2) with
    | some kvb => simp only [lookupD_pyUpdate, hc, hb]
    | none => simp only [lookupD_pyUpdate, hc, hb]

theorem mval_t1 {a b : Option JVal} (na : NodupO a) (nb : NodupO b) (pab : PDisj a b)
    (c : Option JVal) : OEquiv (mval (mval a b) c) (mval (mval b a) c) := by
  cases a with
  | none =>
    rw [mval_none_left, mval_none_right]
    exact OEquiv_refl _
  | some va =>
    cases b with
    | none => exact OEquiv_refl (mval (some va) c)
    | some vb =>
      obtain ⟨da, db, rfl, rfl, hdisj⟩ := pab va vb rfl rfl
      have hna : (keysOf da).Nodup := na da rfl
      have hnb : (keysOf db).Nodup := nb db rfl
      have hin : ∀ k2, lookupD k2 (pyUpdate da db) = lookupD k2 (pyUpdate db da) :=
        lookupD_pyUpdate_comm hna hnb hdisj
      cases c with
      | none => exact hin
      | some vc =>
        cases vc
        case obj dc => exact fun k2 => lookupD_pyUpdate_congr hin dc k2
        all_goals exact hin

theorem mval_t2 {b c : Option JVal} (nb : NodupO b) (nc : NodupO c) (pbc : PDisj b c)
    (a : Option JVal) : OEquiv (mval (mval a b) c) (mval (mval a c) b) := by
  cases b with
  | none => exact OEquiv_refl (mval a c)
  | some vb =>
    cases c with
    | none => exact OEquiv_refl (mval a (some vb))
    | some vc =>
      obtain ⟨db, dc, rfl, rfl, hdisj⟩ := pbc vb vc rfl rfl
      have hnb : (keysOf db).Nodup := nb db rfl
      have hnc : (keysOf dc).Nodup := nc dc rfl
      cases a with
      | none => exact lookupD_pyUpdate_comm hnb hnc hdisj
      | some va =>
        cases va
        case obj da => exact fun k2 => lookupD_pyUpdate2_swap hdisj k2
        all_goals exact OEquiv_refl _

theorem perm_two {α : Type _} {P Q : α} {l : List α} (h : l.Perm [P, Q]) :
    l = [P, Q] ∨ l = [Q, P] := by
  have hlen : l.length = 2 := h.length_eq
  cases l with
  | nil => simp at hlen
  | cons y t =>
    cases t with
    | nil => simp at hlen
    | cons z t2 =>
      cases t2 with
      | cons w t3 =>
        have h4 : t3.length + 3 = 2 := by simpa using hlen
        omega
      | nil =>
        have hy : y = P ∨ y = Q := by
          simpa using h.mem_iff.1 (List.mem_cons_self y [z])
        rcases hy with hy1 | hy1
        · have hperm : ([P, z] : List α).Perm [P, Q] := by
            rw [show ([P, z] : List α) = [y, z] from by rw [hy1]]
            exact h
          have h3 : z = Q := by simpa using List.perm_singleton.1 hperm.cons_inv
          left
          rw [hy1, h3]
        · have hswap : ([P, Q] : List α).Perm [Q, P] := List.Perm.swap Q P []
          have hperm : ([Q, z] : List α).Perm [Q, P] := by
            rw [show ([Q, z] : List α) = [y, z] from by rw [hy1]]
            exact h.trans hswap
          have h3 : z = P := by simpa using List.perm_singleton.1 hperm.cons_inv
          right
          rw [hy1, h3]

theorem perm_three {α : Type _} {A B C : α} {l : List α} (h : l.Perm [A, B, C]) :
    l = [A, B, C] ∨ l = [A, C, B] ∨ l = [B, A, C] ∨ l = [B, C, A] ∨
      l = [C, A, B] ∨ l = [C, B, A] := by
  have hlen : l.length = 3 := h.length_eq
  cases l with
  | nil => simp at hlen
  | cons x t =>
    cases t with
    | nil => simp at hlen
    | cons y t2 =>
      cases t2 with
      | nil => simp at hlen
      | cons z t3 =>
        cases t3 with
        | cons w t4 =>
          have h4 : t4.length + 4 = 3 := by simpa using hlen
          omega
        | nil =>
          have hx : x = A ∨ x = B ∨ x = C := by
            simpa using h.mem_iff.1 (List.mem_cons_self x [y, z])
          rcases hx with hx1 | hx1 | hx1
          · have hperm : ([A, y, z] : List α).Perm [A, B, C] := by
              rw [show ([A, y, z] : List α) = [x, y, z] from by rw [hx1]]
              exact h
            rcases perm_two hperm.cons_inv with h3 | h3
            · left
              rw [hx1, h3]
            · right; left
              rw [hx1, h3]
          · have hswap : ([A, B, C] : List α).Perm (B :: [A, C]) := List.Perm.swap B A [C]
            have hperm : ([B, y, z] : List α).Perm (B :: [A, C]) := by
              rw [show ([B, y, z] : List α) = [x, y, z] from by rw [hx1]]
              exact h.trans hswap
            rcases perm_two hperm.cons_inv with h3 | h3
            · right; right; left
              rw [hx1, h3]
            · right; right; right; left
              rw [hx1, h3]
          · have hs1 : ([A, B, C] : List α).Perm [A, C, B] :=
              List.Perm.cons A (List.Perm.swap C B [])
            have hs2 : ([A, C, B] : List α).Perm (C :: [A, B]) := List.Perm.swap C A [B]
            have hperm : ([C, y, z] : List α).Perm (C :: [A, B]) := by
              rw [show ([C, y, z] : List α) = [x, y, z] from by rw [hx1]]
              exact h.trans (hs1.trans hs2)
            rcases perm_two hperm.cons_inv with h3 | h3
            · right; right; right; right; left
              rw [hx1, h3]
            · right; right; right; right; right
              rw [hx1, h3]

theorem agg3_to_base {A B C : Dict}
    (hA : keysNodupDeepB A = true) (hB : keysNodupDeepB B = true)
    (hC : keysNodupDeepB C = true)
    (hAB : noConflictB A B = true) (hAC : noConflictB A C = true)
    (hBC : noConflictB B C = true) (k : String) :
    ∀ l : List Dict, l.Perm [A, B, C] →
      OEquiv (lookupD k (specsAgg l))
        (mval (mval (lookupD k A) (lookupD k B)) (lookupD k C)) := by
  have htA := keysNodupDeepB_top hA
  have htB := keysNodupDeepB_top hB
  have htC := keysNodupDeepB_top hC
  have na : NodupO (lookupD k A) := fun d hd => keysNodupDeepB_nested hA hd
  have nb : NodupO (lookupD k B) := fun d hd => keysNodupDeepB_nested hB hd
  have nc : NodupO (lookupD k C) := fun d hd => keysNodupDeepB_nested hC hd
  have pab := noConflictB_PDisj hAB k
  have pac := noConflictB_PDisj hAC k
  have pbc := noConflictB_PDisj hBC k
  have pca := PDisj_symm pac
  have pcb := PDisj_symm pbc
  intro l hl
  rcases perm_three hl with rfl | rfl | rfl | rfl | rfl | rfl
  · rw [lookupD_specsAgg3 A B C htA htB htC k]
    exact OEquiv_refl _
  · rw [lookupD_specsAgg3 A C B htA htC htB k]
    exact OEquiv_symm (mval_t2 nb nc pbc (lookupD k A))
  · rw [lookupD_specsAgg3 B A C htB htA htC k]
    exact OEquiv_symm (mval_t1 na nb pab (lookupD k C))
  · rw [lookupD_specsAgg3 B C A htB htC htA k]
    exact OEquiv_trans (mval_t2 nc na pca (lookupD k B))
      (OEquiv_symm (mval_t1 na nb pab (lookupD k C)))
  · rw [lookupD_specsAgg3 C A B htC htA htB k]
    exact OEquiv_trans (mval_t1 nc na pca (lookupD k B))
      (OEquiv_symm (mval_t2 nb nc pbc (lookupD k A)))
  · rw [lookupD_specsAgg3 C B A htC htB htA k]
    exact OEquiv_trans (mval_t1 nc nb pcb (lookupD k A))
      (OEquiv_trans (mval_t2 nc na pca (lookupD k B))
        (OEquiv_symm (mval_t1 na nb pab (lookupD k C))))

/-- C6.  For specs-type extraction results A, B, C with duplicate-free
keys and no key-level conflicts (every shared top-level key carries
object values with disjoint nested keys), folding the specs merge over
any two permutations of [A, B, C] yields the same final mapping: at
every key the two aggregates agree as mappings. -/
theorem specs_merge_perm_invariant
    (A B C : Dict) (l1 l2 : List Dict)
    (hA : keysNodupDeepB A = true) (hB : keysNodupDeepB B = true)
    (hC : keysNodupDeepB C = true)
    (hAB : noConflictB A B = true) (hAC : noConflictB A C = true)
    (hBC : noConflictB B C = true)
    (hp1 : l1.Perm [A, B, C]) (hp2 : l2.Perm [A, B, C]) (k : String) :
    OEquiv (lookupD k (specsAgg l1)) (lookupD k (specsAgg l2)) :=
  OEquiv_trans (agg3_to_base hA hB hC hAB hAC hBC k l1 hp1)
    (OEquiv_symm (agg3_to_base hA hB hC hAB hAC hBC k l2 hp2))

def cw6A : Dict := [("cpu", JVal.obj [("model", JVal.str "i7")])]

def cw6B : Dict := [("cpu", JVal.obj [("cores", JVal.str "8")])]

def cw6C : Dict := [("ram", JVal.str "16 Go")]

/-- C6 witness: three concrete conflict-free specs results merged in
two different orders agree at the shared key. -/
theorem specs_merge_perm_invariant_witness :
    (keysNodupDeepB cw6A = true ∧ keysNodupDeepB cw6B = true ∧
     keysNodupDeepB cw6C = true ∧
     noConflictB cw6A cw6B = true ∧ noConflictB cw6A cw6C = true ∧
     noConflictB cw6B cw6C = true ∧
     List.Perm [cw6B, cw6A, cw6C] [cw6A, cw6B, cw6C] ∧
     List.Perm [cw6C, cw6B, cw6A] [cw6A, cw6B, cw6C]) ∧
    OEquiv (lookupD "cpu" (specsAgg [cw6B, cw6A, cw6C]))
      (lookupD "cpu" (specsAgg [cw6C, cw6B, cw6A])) :=
  ⟨⟨by decide, by decide, by decide, by decide, by decide, by decide,
    by decide, by decide⟩,
   specs_merge_perm_invariant cw6A cw6B cw6C [cw6B, cw6A, cw6C] [cw6C, cw6B, cw6A]
     (by decide) (by decide) (by decide) (by decide) (by decide) (by decide)
     (by decide) (by decide) "cpu"⟩

/-! Spec-modelled components: the robots-policy rate limiter and the
length-based chunker are repository code whose sources are not in the
snapshot (only src/tests/test_robots_checker.py and the chunker tests
are), so they are modelled from the spec. -/

/-- Modelled from the spec: per-domain rate-limiter state of
RobotsChecker (src/scrapers/robots_checker.py is missing from the
snapshot).  Times are rationals (Python float timestamps). -/
structure RateLimitState where
  last_request_time : Option Rat
deriving Repr, DecidableEq

/-- Modelled from the spec: required spacing
`max(declared_crawl_delay, configured_rate_limit)` (spec section 4.4). -/
def requiredSpacing (crawl_delay rate_limit : Rat) : Rat :=
  max crawl_delay rate_limit

/-- Modelled from the spec: the rate-limiting step of
RobotsChecker.can_fetch for one domain.  Spec section 4.4: if the
domain's last_request_time is set, block (sleep) for the full required
spacing before returning allow, then record the new current time; the
test test_can_fetch_rate_limiting confirms the full-spacing sleep
(sleep(2.0) after an elapsed 0.5 s).  The returned rational is the
recorded new last_request_time (current time after the sleep). -/
def can_fetch_rate_step (st : RateLimitState) (now crawl_delay rate_limit : Rat) :
    Rat × RateLimitState :=
  match st.last_request_time with
  | none => (now, ⟨some now⟩)
  | some _ =>
    let t := now + requiredSpacing crawl_delay rate_limit
    (t, ⟨some t⟩)

/-- C8.  Between two consecutive allowed fetches to the same domain,
the elapsed time between the recorded last_request_time values is at
least max(crawl_delay, rate_limit): a second request finding a recorded
time sleeps the full spacing and records the post-sleep time. -/
theorem rate_limit_spacing :
    ∀ (r1 now2 crawl_delay rate_limit : Rat),
      r1 ≤ now2 →
      requiredSpacing crawl_delay rate_limit ≤
        (can_fetch_rate_step ⟨some r1⟩ now2 crawl_delay rate_limit).1 - r1 ∧
      (can_fetch_rate_step ⟨some r1⟩ now2 crawl_delay rate_limit).2.last_request_time
        = some (can_fetch_rate_step ⟨some r1⟩ now2 crawl_delay rate_limit).1 := by
  intro r1 now2 crawl_delay rate_limit h
  constructor
  · show requiredSpacing crawl_delay rate_limit
      ≤ (now2 + requiredSpacing crawl_delay rate_limit) - r1
    linarith
  · rfl

/-- C8 witness: the spacing bound at concrete times (previous record at
100, second request at 102, crawl delay 3, rate limit 2). -/
theorem rate_limit_spacing_witness :
    (100 : Rat) ≤ 102 ∧
    (requiredSpacing 3 2 ≤ (can_fetch_rate_step ⟨some 100⟩ 102 3 2).1 - 100 ∧
     (can_fetch_rate_step ⟨some 100⟩ 102 3 2).2.last_request_time
       = some (can_fetch_rate_step ⟨some 100⟩ 102 3 2).1) :=
  ⟨by decide, rate_limit_spacing 100 102 3 2 (by decide)⟩

/-- Sentence terminators of the length-based cut search. -/
def isSentenceEnd (c : Char) : Bool := c = '.' || c = '!' || c = '?'

/-- Modelled from the spec: backward search for the highest position in
the window, within the bounded look-back distance from the window end,
whose character satisfies the predicate. -/
def lastBreak (pred : Char → Bool) (window : List Char) (lookback : Nat) : Option Nat :=
  (List.range window.length).reverse.find?
    (fun i => decide (window.length - i ≤ lookback) &&
      (match window.get? i with | some c => pred c | none => false))

/-- Modelled from the spec: one window cut of length-based chunking: a
sentence terminator, else a newline, else a word boundary, found
backward within the look-back bound, else a hard cut at max_length. -/
def windowCut (window : List Char) (lookback : Nat) (max_length : Nat) : Nat :=
  match lastBreak isSentenceEnd window lookback with
  | some i => i + 1
  | none =>
    match lastBreak (fun c => c = '\n') window lookback with
    | some i => i + 1
    | none =>
      match lastBreak (fun c => c = ' ') window lookback with
      | some i => i + 1
      | none => max_length

/-- Modelled from the spec: the recursive window loop of chunk_by_length
(fuel-based; the fuel is the text length, and every step drops at least
one character). -/
def cbl_go (max_length overlap : Nat) : Nat → List Char → List (List Char)
  | 0, _ => []
  | fuel + 1, s =>
    if s.length ≤ max_length then [s]
    else
      let window := s.take max_length
      let cut := windowCut window 200 max_length
      let chunk := s.take cut
      chunk :: cbl_go max_length overlap fuel (s.drop (max (cut - overlap) 1))

/-- Modelled from the spec: chunk_by_length of
src/processors/html_chunker.py (missing from the snapshot).  Spec
section 4.2 plus its tests: empty input yields an empty chunk list (not
one empty chunk); text not exceeding max_length is returned whole;
longer text is cut window by window at the best break point, with
`overlap` characters of bounded duplication between consecutive
chunks. -/
def chunk_by_length (text : List Char) (max_length : Nat := 1000)
    (overlap : Nat := 100) : List (List Char) :=
  if text.isEmpty then [] else cbl_go max_length overlap text.length text

/-- C9 counterexample: the empty text is strictly shorter than
max_length but yields the empty chunk list, not one chunk equal to the
input (both the spec, section 4.2, and
test_chunk_by_length_empty require the empty list). -/
theorem chunk_by_length_empty_counterexample :
    chunk_by_length [] 100 10 = [] ∧ ([] : List (List Char)) ≠ [[]] := by
  exact ⟨rfl, by decide⟩

/-- C9 amended.  Every non-empty text strictly shorter than max_length
is returned as exactly one chunk equal to the input; the empty text
yields the empty list. -/
theorem chunk_by_length_short (text : List Char) (max_length overlap : Nat)
    (hne : text ≠ []) (hlen : text.length < max_length) :
    chunk_by_length text max_length overlap = [text] := by
  unfold chunk_by_length
  rw [if_neg (by simpa using hne)]
  cases text with
  | nil => exact absurd rfl hne
  | cons c rest =>
    show cbl_go max_length overlap (rest.length + 1) (c :: rest) = [c :: rest]
    unfold cbl_go
    rw [if_pos (le_of_lt hlen)]

/-- C9 witness: a three-character text with max_length 100. -/
theorem chunk_by_length_short_witness :
    (['a', 'b', 'c'] : List Char) ≠ [] ∧
    (['a', 'b', 'c'] : List Char).length < 100 ∧
    chunk_by_length ['a', 'b', 'c'] 100 10 = [['a', 'b', 'c']] :=
  ⟨by decide, by decide, chunk_by_length_short ['a', 'b', 'c'] 100 10
    (by decide) (by decide)⟩

end AIScrapping
